import Mathlib

/-!
# Shallow embedding of `src/server.js` (class `QueryProcessor`)

The development embeds the three synchronous methods of `QueryProcessor`:
`validateQuery`, `calculateComplexity` and `executeQuery`.

Modelling conventions

* JavaScript strings are Lean `String`s; the string primitives used by the source
  (`includes`, `split`, `trim`, `replace(/'/g, '')`, `join`, `toUpperCase`) are
  written by structural recursion on the character list so that they evaluate.
* JavaScript numbers are exact rationals extended with `NaN` and the two infinities
  (no binary rounding); every number the complexity formula produces is a multiple
  of one half, which a double represents exactly.  A numeric literal is given its
  mathematical value, which the code rounds to a double: the two agree under `==`,
  `<` and `>` on the decimals singled out by `JSNumber.Representable`, and the
  theorems that compare numbers are stated there.
* A record is the ordered list of its own properties.  The members every object
  inherits from `Object.prototype` (`objectPrototypeNames`) are not part of the
  model; the theorems about `==` / `!=` exclude those names unless the record owns
  them.
* `toUpperCase` and the conversion of `limit` to text are modelled on ASCII text and
  on safe integers (`withinRenderingModel`), where the rendering theorem is stated.
* `mockDataDB.getAllData()` is the `records` argument of `executeQuery`.
* The mutable locals `whereClauses` (an array) and `uniqueConditions` (a `Set`)
  that the filter callback updates are threaded explicitly as a `ClauseState`.
* `Math.random()` is the `rand` argument of `executeQuery`.
-/

namespace QueryProcessor

/-! ## JavaScript strings -/

/-- The code points that `String.prototype.trim` removes (WhiteSpace and LineTerminator). -/
def isJSWhitespace (c : Char) : Bool :=
  let n := c.toNat
  n == 0x09 || n == 0x0A || n == 0x0B || n == 0x0C || n == 0x0D || n == 0x20 ||
  n == 0xA0 || n == 0x1680 || (0x2000 ≤ n && n ≤ 0x200A) || n == 0x2028 ||
  n == 0x2029 || n == 0x202F || n == 0x205F || n == 0x3000 || n == 0xFEFF

/-- Drop the leading whitespace of a character list. -/
def trimStartChars : List Char → List Char
  | [] => []
  | c :: cs => if isJSWhitespace c then trimStartChars cs else c :: cs

/-- Character-list form of `trim`. -/
def trimChars (cs : List Char) : List Char :=
  (trimStartChars (trimStartChars cs).reverse).reverse

/-- JavaScript `s.trim()`. -/
def trim (s : String) : String := ⟨trimChars s.data⟩

/-- Whether `p` is a prefix of `cs`. -/
def startsWithChars : List Char → List Char → Bool
  | [], _ => true
  | _ :: _, [] => false
  | p :: ps, c :: cs => p == c && startsWithChars ps cs

/-- Whether `pat` occurs in `cs` as a contiguous block. -/
def includesChars (pat : List Char) : List Char → Bool
  | [] => startsWithChars pat []
  | c :: cs => startsWithChars pat (c :: cs) || includesChars pat cs

/-- JavaScript `s.includes(pat)`. -/
def includes (s pat : String) : Bool := includesChars pat.data s.data

/-- Worker of `split` for a non-empty separator: `skip` counts the characters of a
separator occurrence still to be consumed, `acc` is the current piece, reversed. -/
def splitGo (sep : List Char) : List Char → Nat → List Char → List (List Char)
  | [], _, acc => [acc.reverse]
  | _ :: cs, skip + 1, acc => splitGo sep cs skip acc
  | c :: cs, 0, acc =>
    if startsWithChars sep (c :: cs) then acc.reverse :: splitGo sep cs (sep.length - 1) []
    else splitGo sep cs 0 (c :: acc)

/-- JavaScript `s.split(sep)` for a non-empty separator string. -/
def split (s sep : String) : List String :=
  (splitGo sep.data s.data 0 []).map String.mk

/-- JavaScript `s.replace(/'/g, '')`: delete every apostrophe. -/
def stripQuotes (s : String) : String := ⟨s.data.filter (fun c => c != '\'')⟩

/-- Character-list form of `join`. -/
def joinChars (sep : List Char) : List String → List Char
  | [] => []
  | [x] => x.data
  | x :: y :: rest => x.data ++ sep ++ joinChars sep (y :: rest)

/-- JavaScript `xs.join(sep)` on an array of strings. -/
def join (xs : List String) (sep : String) : String := ⟨joinChars sep.data xs⟩

/-- JavaScript `s.toUpperCase()` for ASCII `s` (such as `asc` and `desc`), where only
the letters `a`-`z` change.  Outside ASCII the built-in follows the Unicode case
mapping, which this definition does not. -/
def toUpperCase (s : String) : String := ⟨s.data.map Char.toUpper⟩

/-! ## JavaScript numbers and values -/

/-- A JavaScript number: `NaN`, an infinity, or a finite value. -/
inductive JSNumber where
  | nan
  | posInf
  | negInf
  | fin (q : ℚ)
  deriving DecidableEq

/-- Strict numeric `<`; false as soon as one side is `NaN`. -/
def JSNumber.lt : JSNumber → JSNumber → Bool
  | .nan, _ => false
  | _, .nan => false
  | .posInf, _ => false
  | _, .negInf => false
  | .negInf, _ => true
  | _, .posInf => true
  | .fin a, .fin b => decide (a < b)

/-- Numeric equality (`Number::equal`); `NaN` equals nothing. -/
def JSNumber.equal : JSNumber → JSNumber → Bool
  | .posInf, .posInf => true
  | .negInf, .negInf => true
  | .fin a, .fin b => decide (a = b)
  | _, _ => false

/-- Negation of a number. -/
def JSNumber.neg : JSNumber → JSNumber
  | .nan => .nan
  | .posInf => .negInf
  | .negInf => .posInf
  | .fin q => .fin (-q)

/-- Value of a digit character in the given radix, if it is one. -/
def digitValue (radix : Nat) (c : Char) : Option Nat :=
  let n := c.toNat
  let v := if 48 ≤ n ∧ n ≤ 57 then some (n - 48)
           else if 97 ≤ n ∧ n ≤ 122 then some (n - 87)
           else if 65 ≤ n ∧ n ≤ 90 then some (n - 55)
           else none
  match v with
  | some d => if d < radix then some d else none
  | none => none

/-- Read a non-empty run of digits in `radix` covering the whole list. -/
def parseDigits (radix : Nat) : List Char → Nat → Option Nat
  | [], acc => some acc
  | c :: cs, acc =>
    match digitValue radix c with
    | some d => parseDigits radix cs (acc * radix + d)
    | none => none

/-- Split off the longest prefix of decimal digits. -/
def spanDecimal : List Char → List Char × List Char
  | [] => ([], [])
  | c :: cs =>
    match digitValue 10 c with
    | some _ => let r := spanDecimal cs; (c :: r.1, r.2)
    | none => ([], c :: cs)

/-- Value of a run of decimal digits. -/
def decimalValue (ds : List Char) : Nat :=
  ds.foldl (fun acc c => acc * 10 + (c.toNat - 48)) 0

/-- The exponent part `e[+-]digits` of a decimal literal; `some 0` when absent. -/
def parseExponent : List Char → Option Int
  | [] => some 0
  | c :: cs =>
    if c == 'e' || c == 'E' then
      match cs with
      | '+' :: ds => if ds.isEmpty then none else (parseDigits 10 ds 0).map Int.ofNat
      | '-' :: ds => if ds.isEmpty then none else (parseDigits 10 ds 0).map (fun n => - Int.ofNat n)
      | ds => if ds.isEmpty then none else (parseDigits 10 ds 0).map Int.ofNat
    else none

/-- The rational `m * 10 ^ e`. -/
def scale10 (m : Nat) (e : Int) : ℚ :=
  match e with
  | Int.ofNat k => ((m * 10 ^ k : Nat) : ℚ)
  | Int.negSucc k => mkRat (m : Int) (10 ^ (k + 1))

/-- An unsigned `StrUnsignedDecimalLiteral`. -/
def parseUnsignedDecimal (cs : List Char) : JSNumber :=
  if cs == "Infinity".data then .posInf
  else
    let (ip, r1) := spanDecimal cs
    let (fp, r2) :=
      match r1 with
      | '.' :: r => spanDecimal r
      | r => ([], r)
    if ip.isEmpty && fp.isEmpty then .nan
    else
      match parseExponent r2 with
      | some e => .fin (scale10 (decimalValue (ip ++ fp)) (e - fp.length))
      | none => .nan

/-- JavaScript `StringToNumber` after trimming: the grammar `StrNumericLiteral`. -/
def parseNumericLiteral : List Char → JSNumber
  | [] => .fin 0
  | '0' :: 'x' :: ds | '0' :: 'X' :: ds =>
    if ds.isEmpty then .nan else
    match parseDigits 16 ds 0 with | some n => .fin n | none => .nan
  | '0' :: 'o' :: ds | '0' :: 'O' :: ds =>
    if ds.isEmpty then .nan else
    match parseDigits 8 ds 0 with | some n => .fin n | none => .nan
  | '0' :: 'b' :: ds | '0' :: 'B' :: ds =>
    if ds.isEmpty then .nan else
    match parseDigits 2 ds 0 with | some n => .fin n | none => .nan
  | '+' :: cs => parseUnsignedDecimal cs
  | '-' :: cs => (parseUnsignedDecimal cs).neg
  | cs => parseUnsignedDecimal cs

/-- JavaScript `Number(s)` for a string `s`: the mathematical value of the literal.
The code rounds that value to the nearest double (overflowing to an infinity,
underflowing to zero); on `JSNumber.Representable` values the comparisons `==`, `<`
and `>` of the rounded numbers are those of the exact values. -/
def stringToNumber (s : String) : JSNumber := parseNumericLiteral (trimChars s.data)

/-- The values a record property can hold (the JSON scalars, plus `undefined`). -/
inductive JSValue where
  | undefined
  | null
  | bool (b : Bool)
  | number (n : JSNumber)
  | string (s : String)
  deriving DecidableEq

/-- JavaScript `ToNumber` on a primitive value. -/
def toNumber : JSValue → JSNumber
  | .undefined => .nan
  | .null => .fin 0
  | .bool true => .fin 1
  | .bool false => .fin 0
  | .number n => n
  | .string s => stringToNumber s

/-- Loose equality `x == s` of a value with a string (IsLooselyEqual). -/
def looseEqString (x : JSValue) (s : String) : Bool :=
  match x with
  | .undefined => false
  | .null => false
  | .string t => decide (t = s)
  | .number n => n.equal (stringToNumber s)
  | .bool b => (toNumber (.bool b)).equal (stringToNumber s)

/-- The comparison `x > n` of a value with a number. -/
def greaterThanNumber (x : JSValue) (n : JSNumber) : Bool := n.lt (toNumber x)

/-- The comparison `x < n` of a value with a number. -/
def lessThanNumber (x : JSValue) (n : JSNumber) : Bool := (toNumber x).lt n

/-! ## Records -/

/-- A record: its own properties, in insertion order. -/
abbrev Record := List (String × JSValue)

/-- JavaScript `item.hasOwnProperty(field)`. -/
def hasOwnProperty (item : Record) (field : String) : Bool :=
  item.any (fun p => p.1 == field)

/-- JavaScript `item[field]` for a record and a name: the own property, and
`undefined` when the record owns none.  For a name of `objectPrototypeNames` that the
record does not own, the code finds the inherited function or object instead; like
`undefined` it coerces to `NaN`, and it differs from `undefined` only under `==` and
`!=`. -/
def getProp : Record → String → JSValue
  | [], _ => .undefined
  | p :: rest, field => if p.1 = field then p.2 else getProp rest field

/-- JavaScript `obj[field] = v`: overwrite in place, or append a new property. -/
def setProp : Record → String → JSValue → Record
  | [], field, v => [(field, v)]
  | p :: rest, field, v =>
    if p.1 = field then (p.1, v) :: rest else p :: setProp rest field v

/-- The own property `field` of a record, if there is one. -/
def ownProp : Record → String → Option JSValue
  | [], _ => none
  | p :: rest, field => if p.1 = field then some p.2 else ownProp rest field

/-! ## The structured query -/

/-- The `sort` member of a query: `{field, order}`. -/
structure SortSpec where
  field : String
  order : String
  deriving DecidableEq

/-- The object `queryAnalysis` that the three methods read.  `none` stands for a
member that is `null` or missing; `originalQuery` is never read and is left out. -/
structure QueryAnalysis where
  filters : Option (List String)
  fields : Option (List String)
  sort : Option SortSpec
  limit : Option Nat
  deriving DecidableEq

/-- JavaScript `xs?.length || d`: the length, or `d` when `xs` is missing or empty. -/
def lengthOr (xs : Option (List String)) (d : Nat) : Nat :=
  match xs with
  | some l => if l.length = 0 then d else l.length
  | none => d

/-- Truthiness of `queryAnalysis.limit`: a number is truthy unless it is zero. -/
def limitTruthy (limit : Option Nat) : Bool :=
  match limit with
  | some n => n != 0
  | none => false

/-- Truthiness of `queryAnalysis.fields && queryAnalysis.fields.length > 0`. -/
def hasItems (xs : Option (List String)) : Bool :=
  match xs with
  | some l => decide (l.length > 0)
  | none => false

/-! ## calculateComplexity -/

/-- The local `score` of `calculateComplexity` just before the final `Math.min`. -/
def complexityScore (queryAnalysis : QueryAnalysis) : ℚ :=
  let score : ℚ := 0
  let score := score + (lengthOr queryAnalysis.filters 0 : ℚ) * 2
  let score := score + (lengthOr queryAnalysis.fields 7 : ℚ) * (1 / 2)
  let score := if queryAnalysis.sort.isSome then score + 1 else score
  let score := if limitTruthy queryAnalysis.limit then score + 1 / 2 else score
  score

/-- `QueryProcessor.calculateComplexity`. -/
def calculateComplexity (queryAnalysis : QueryAnalysis) : ℚ :=
  min 10 (complexityScore queryAnalysis)

/-! ## validateQuery -/

/-- The literal `validFields` of `validateQuery`. -/
def validFields : List String :=
  ["id", "product", "category", "price", "units_sold", "region", "date"]

/-- The object returned by `validateQuery`. -/
structure ValidationResult where
  isValid : Bool
  issues : List String
  complexity : ℚ

/-- The `invalidFields` local of `validateQuery`. -/
def invalidFieldsOf (fields : List String) : List String :=
  fields.filter (fun f => !validFields.contains f)

/-- The `invalidFilters` local of `validateQuery`. -/
def invalidFiltersOf (filters : List String) : List String :=
  filters.filter (fun f =>
    !includes f "==" && !includes f ">" && !includes f "<" && !includes f "!=")

/-- The first block of `validateQuery`: the issues after the field check. -/
def fieldIssues (queryAnalysis : QueryAnalysis) (issues : List String) : List String :=
  match queryAnalysis.fields with
  | some fields =>
    if fields.length > 0 then
      if (invalidFieldsOf fields).length > 0 then
        issues ++ ["Invalid fields requested: " ++ join (invalidFieldsOf fields) ", "]
      else issues
    else issues
  | none => issues

/-- The second block of `validateQuery`: the issues after the filter syntax check. -/
def filterIssues (queryAnalysis : QueryAnalysis) (issues : List String) : List String :=
  match queryAnalysis.filters with
  | some filters =>
    if (invalidFiltersOf filters).length > 0 then
      issues ++ ["Some filters have invalid syntax: " ++ join (invalidFiltersOf filters) ", "]
    else issues
  | none => issues

/-- `QueryProcessor.validateQuery`. -/
def validateQuery (queryAnalysis : QueryAnalysis) : ValidationResult :=
  let issues : List String := []
  let issues := fieldIssues queryAnalysis issues
  let issues := filterIssues queryAnalysis issues
  { isValid := issues.length == 0
    issues := issues
    complexity := calculateComplexity queryAnalysis }

/-! ## executeQuery -/

/-- The two mutable locals the filter callback updates. -/
structure ClauseState where
  whereClauses : List String
  uniqueConditions : List String
  deriving DecidableEq

/-- The state at entry: `whereClauses = []`, `uniqueConditions = new Set()`. -/
def ClauseState.init : ClauseState := ⟨[], []⟩

/-- The block `if (!uniqueConditions.has(condition)) { push; add }`. -/
def noteCondition (st : ClauseState) (condition : String) : ClauseState :=
  if st.uniqueConditions.contains condition then st
  else ⟨st.whereClauses ++ [condition], st.uniqueConditions ++ [condition]⟩

/-- Element `i` of a destructured array of strings.  The callback destructures the
result of `split` only after `includes` has succeeded, so that positions 0 and 1
exist (`two_le_length_split`) and the default is never read. -/
def nth (xs : List String) (i : Nat) : String := xs.getD i ""

/-- One call of the callback passed to `filters.every`, for the record `item`:
the Boolean it returns and the updated locals. -/
def evalFilter (item : Record) (filter : String) (st : ClauseState) : Bool × ClauseState :=
  if includes filter "==" then
    let parts := (split filter "==").map (fun s => stripQuotes (trim s))
    let field := nth parts 0
    let value := nth parts 1
    let condition := field ++ " = '" ++ value ++ "'"
    (looseEqString (getProp item field) value, noteCondition st condition)
  else if includes filter "!=" then
    let parts := (split filter "!=").map (fun s => stripQuotes (trim s))
    let field := nth parts 0
    let value := nth parts 1
    let condition := field ++ " != '" ++ value ++ "'"
    (!looseEqString (getProp item field) value, noteCondition st condition)
  else if includes filter ">" then
    let parts := (split filter ">").map (fun s => trim s)
    let field := nth parts 0
    let value := nth parts 1
    let condition := field ++ " > " ++ value
    (greaterThanNumber (getProp item field) (stringToNumber value), noteCondition st condition)
  else if includes filter "<" then
    let parts := (split filter "<").map (fun s => trim s)
    let field := nth parts 0
    let value := nth parts 1
    let condition := field ++ " < " ++ value
    (lessThanNumber (getProp item field) (stringToNumber value), noteCondition st condition)
  else (true, st)

/-- JavaScript `filters.every(callback)` for one record: stops at the first filter
whose callback returns false. -/
def everyFilter (item : Record) : List String → ClauseState → Bool × ClauseState
  | [], st => (true, st)
  | filter :: rest, st =>
    let r := evalFilter item filter st
    if r.1 then everyFilter item rest r.2 else (false, r.2)

/-- JavaScript `results.filter(item => filters.every(callback))`: the retained
records and the locals after the scan. -/
def filterRecords (filters : List String) : List Record → ClauseState → List Record × ClauseState
  | [], st => ([], st)
  | item :: rest, st =>
    let r := everyFilter item filters st
    let t := filterRecords filters rest r.2
    (if r.1 then item :: t.1 else t.1, t.2)

/-- The first block of `executeQuery`: `results` and the locals after filtering. -/
def applyFilters (queryAnalysis : QueryAnalysis) (records : List Record) :
    List Record × ClauseState :=
  match queryAnalysis.filters with
  | some filters =>
    if filters.length > 0 then filterRecords filters records ClauseState.init
    else (records, ClauseState.init)
  | none => (records, ClauseState.init)

/-- The callback of the projection `map`: copy the requested own properties. -/
def projectItem (fields : List String) (item : Record) : Record :=
  fields.foldl
    (fun filteredItem field =>
      if hasOwnProperty item field then setProp filteredItem field (getProp item field)
      else filteredItem)
    []

/-- JavaScript template conversion of the number `limit`, for a safe integer (at most
2^53 - 1): its decimal digits.  Larger numbers are printed from their shortest
round-trip digits, and in exponent form from 10^21 on, which this definition does
not do. -/
def numberToString (n : Nat) : String := Nat.repr n

/-- The string `sqlQuery` assembled from the query and the final `whereClauses`. -/
def buildSql (queryAnalysis : QueryAnalysis) (whereClauses : List String) : String :=
  let selectFields :=
    match queryAnalysis.fields with
    | some fields => if fields.length > 0 then join fields ", " else "*"
    | none => "*"
  let orderByClause :=
    match queryAnalysis.sort with
    | some s => " ORDER BY " ++ s.field ++ " " ++ toUpperCase s.order
    | none => ""
  let limitClause :=
    match queryAnalysis.limit with
    | some n => if n != 0 then " LIMIT " ++ numberToString n else ""
    | none => ""
  "SELECT " ++ selectFields ++ " FROM products" ++
    (if whereClauses.length > 0 then " WHERE " ++ join whereClauses " AND " else "") ++
    orderByClause ++
    limitClause

/-- The `stats` member of the result. -/
structure Stats where
  recordsReturned : Nat
  executionTimeMs : ℚ
  complexity : ℚ

/-- The object returned by `executeQuery`. -/
structure ExecutionResult where
  data : List Record
  stats : Stats
  sqlQuery : String

/-- `QueryProcessor.executeQuery`, with the record collection and the value of
`Math.random()` as arguments. -/
def executeQuery (queryAnalysis : QueryAnalysis) (records : List Record) (rand : ℚ) :
    ExecutionResult :=
  let filtered := applyFilters queryAnalysis records
  let results := filtered.1
  let whereClauses := filtered.2.whereClauses
  let sqlQuery := buildSql queryAnalysis whereClauses
  let results :=
    match queryAnalysis.fields with
    | some fields => if fields.length > 0 then results.map (projectItem fields) else results
    | none => results
  { data := results
    stats :=
      { recordsReturned := results.length
        executionTimeMs := rand * 100 + 50
        complexity := calculateComplexity queryAnalysis }
    sqlQuery := sqlQuery }

/-! ## Derived pure views of the filter callback -/

/-- The Boolean the filter callback returns for `item` and `filter` (its `return`
expressions, branch by branch, without the bookkeeping of clauses). -/
def filterPredicate (item : Record) (filter : String) : Bool :=
  if includes filter "==" then
    let parts := (split filter "==").map (fun s => stripQuotes (trim s))
    looseEqString (getProp item (nth parts 0)) (nth parts 1)
  else if includes filter "!=" then
    let parts := (split filter "!=").map (fun s => stripQuotes (trim s))
    !looseEqString (getProp item (nth parts 0)) (nth parts 1)
  else if includes filter ">" then
    let parts := (split filter ">").map (fun s => trim s)
    greaterThanNumber (getProp item (nth parts 0)) (stringToNumber (nth parts 1))
  else if includes filter "<" then
    let parts := (split filter "<").map (fun s => trim s)
    lessThanNumber (getProp item (nth parts 0)) (stringToNumber (nth parts 1))
  else true

/-- The string `condition` the filter callback computes for `filter`; `none` for a
filter without operator token, for which the callback computes none. -/
def clauseText (filter : String) : Option String :=
  if includes filter "==" then
    let parts := (split filter "==").map (fun s => stripQuotes (trim s))
    some (nth parts 0 ++ " = '" ++ nth parts 1 ++ "'")
  else if includes filter "!=" then
    let parts := (split filter "!=").map (fun s => stripQuotes (trim s))
    some (nth parts 0 ++ " != '" ++ nth parts 1 ++ "'")
  else if includes filter ">" then
    let parts := (split filter ">").map (fun s => trim s)
    some (nth parts 0 ++ " > " ++ nth parts 1)
  else if includes filter "<" then
    let parts := (split filter "<").map (fun s => trim s)
    some (nth parts 0 ++ " < " ++ nth parts 1)
  else none

/-- Update of the locals by one callback invocation whose fragment is `c`. -/
def noteClause (st : ClauseState) (c : Option String) : ClauseState :=
  match c with
  | some condition => noteCondition st condition
  | none => st

/-- The array `whereClauses` when `sqlQuery` is assembled. -/
def finalClauses (queryAnalysis : QueryAnalysis) (records : List Record) : List String :=
  (applyFilters queryAnalysis records).2.whereClauses

/-- The filters of a query as a list (`[]` when the member is missing). -/
def filtersOf (queryAnalysis : QueryAnalysis) : List String :=
  queryAnalysis.filters.getD []

/-- The fields of a query as a list (`[]` when the member is missing). -/
def fieldsOf (queryAnalysis : QueryAnalysis) : List String :=
  queryAnalysis.fields.getD []

/-- The fragment `c` has already been recorded in the state. -/
def Noted (st : ClauseState) (c : Option String) : Prop :=
  ∀ condition, c = some condition → condition ∈ st.uniqueConditions

/-- The state is what recording a prefix of the fragment list `L` from the initial
state gives. -/
def Reached (L : List (Option String)) (st : ClauseState) : Prop :=
  ∃ j, st = (L.take j).foldl noteClause ClauseState.init

/-- Position in `L` of the first entry whose fragment is `c` (the length of `L` when
there is none). -/
def firstIdx (c : String) : List (Option String) → Nat
  | [] => 0
  | o :: rest => if o = some c then 0 else firstIdx c rest + 1

/-- The state agrees with the fragment list `P` it was built from: the array and the
set hold the same strings, without repetition, namely the fragments of `P`, ordered
by first occurrence in `P`. -/
def Faithful (P : List (Option String)) (st : ClauseState) : Prop :=
  st.uniqueConditions = st.whereClauses ∧
  st.whereClauses.Nodup ∧
  (∀ c, c ∈ st.whereClauses ↔ some c ∈ P) ∧
  (∀ a b, a ∈ st.whereClauses → b ∈ st.whereClauses →
    (st.whereClauses.indexOf a < st.whereClauses.indexOf b ↔
      firstIdx a P < firstIdx b P))

/-! ## The specification's formulas, for comparison with the code -/

/-- The canonical query string as the rendering rule words it: field list or `*`,
then the optional `WHERE`, `ORDER BY` and `LIMIT` segments, each present exactly
when its argument is (`fragments` non-empty, `sort` present, `limit` present). -/
def canonicalQuery (fields fragments : List String) (sort : Option SortSpec)
    (limit : Option Nat) : String :=
  "SELECT " ++ (if fields = [] then "*" else join fields ", ") ++ " FROM products" ++
    (if fragments = [] then "" else " WHERE " ++ join fragments " AND ") ++
    (match sort with
      | some s => " ORDER BY " ++ s.field ++ " " ++ toUpperCase s.order
      | none => "") ++
    (match limit with
      | some n => " LIMIT " ++ numberToString n
      | none => "")

/-- The complexity formula as the validator's contract words it; `limitPresent` says
whether the limit term is counted. -/
def complexityFormula (filters fields : List String) (sortPresent limitPresent : Bool) : ℚ :=
  min 10 (2 * (filters.length : ℚ)
    + (1 / 2) * (if fields = [] then (7 : ℚ) else (fields.length : ℚ))
    + (if sortPresent then 1 else 0)
    + (if limitPresent then 1 / 2 else 0))

/-- An issue string of the field check: it starts with `Invalid fields requested: `. -/
def isInvalidFieldsEntry (issue : String) : Bool :=
  startsWithChars "Invalid fields requested: ".data issue.data

/-! ## Example data -/

/-- First record of the end-to-end example. -/
def recordA : Record :=
  [("id", .number (.fin 1)), ("product", .string "A"), ("category", .string "Software"),
   ("price", .number (.fin 600)), ("units_sold", .number (.fin 10)),
   ("region", .string "Europe"), ("date", .string "2024-01-01")]

/-- Second record of the end-to-end example. -/
def recordB : Record :=
  [("id", .number (.fin 2)), ("product", .string "B"), ("category", .string "Add-on"),
   ("price", .number (.fin 50)), ("units_sold", .number (.fin 500)),
   ("region", .string "Asia"), ("date", .string "2024-02-01")]

/-- The query of the end-to-end example. -/
def exampleQuery : QueryAnalysis :=
  { filters := some ["price > 500", "category == 'Software'"]
    fields := some ["product", "price"]
    sort := none
    limit := none }

/-- The two filters of the end-to-end example, without projection. -/
def twoFilterQuery : QueryAnalysis :=
  { filters := some ["price > 500", "category == 'Software'"]
    fields := some []
    sort := none
    limit := none }

/-- A query with a repeated filter. -/
def repeatedFilterQuery : QueryAnalysis :=
  { filters := some ["region == 'Europe'", "price > 500", "region == 'Europe'"]
    fields := some []
    sort := none
    limit := none }

/-- A query whose only member of interest is `limit: 0`. -/
def limitZeroQuery : QueryAnalysis :=
  { filters := some [], fields := some [], sort := none, limit := some 0 }

/-- The query of the complexity example (score 12.5 before the clamp). -/
def heavyQuery : QueryAnalysis :=
  { filters := some ["price > 500", "region == 'Europe'", "category == 'Software'",
      "units_sold < 100"]
    fields := some []
    sort := some { field := "price", order := "desc" }
    limit := some 10 }

/-- The query of the unknown-field example. -/
def bogusFieldQuery : QueryAnalysis :=
  { filters := none, fields := some ["id", "bogus"], sort := none, limit := none }

/-- An issue string of the filter syntax check: it starts with
`Some filters have invalid syntax: `. -/
def isFilterSyntaxEntry (issue : String) : Bool :=
  startsWithChars "Some filters have invalid syntax: ".data issue.data

/-- Whether a filter contains at least one of the four operator tokens. -/
def hasOperatorToken (filter : String) : Bool :=
  includes filter "==" || includes filter "!=" || includes filter ">" || includes filter "<"

/-- A query with a filter that has no operator token and one on an unknown field. -/
def malformedFilterQuery : QueryAnalysis :=
  { filters := some ["price > 500", "cheap products", "colour == 'red'"]
    fields := some []
    sort := none
    limit := none }

/-- The two sides of `filter` the callback destructures after `split(op)` and the
per-piece clean-up `clean`: `[field, value]`. -/
def sidesOf (filter op : String) (clean : String → String) : String × String :=
  let parts := (split filter op).map clean
  (nth parts 0, nth parts 1)

/-- The query `q` with the list `filters` as its filters. -/
def withFilters (q : QueryAnalysis) (filters : List String) : QueryAnalysis :=
  { q with filters := some filters }

/-- A query without filters, fields, sort or limit. -/
def emptyQuery : QueryAnalysis :=
  { filters := none, fields := none, sort := none, limit := none }

/-- Number of filters the callback is invoked on for `item`: up to and including the
first filter whose predicate is false, or all of them. -/
def evaluatedCount (item : Record) : List String → Nat
  | [] => 0
  | filter :: rest =>
    if filterPredicate item filter then evaluatedCount item rest + 1 else 1

/-- The largest `evaluatedCount` over the records scanned (0 for no record). -/
def scanDepth (filters : List String) (records : List Record) : Nat :=
  records.foldl (fun k item => max k (evaluatedCount item filters)) 0

/-- Remove repeated strings, keeping the first occurrence of each. -/
def dedupKeepFirst (xs : List String) : List String :=
  xs.foldl (fun acc x => if x ∈ acc then acc else acc ++ [x]) []

/-- A query with a limit smaller than the number of matching records. -/
def limitOneQuery : QueryAnalysis :=
  { filters := some ["price > 10"]
    fields := some []
    sort := some { field := "price", order := "asc" }
    limit := some 1 }

/-- Delete every quote character, single or double (the reading under which a value
wrapped in double quotes would be unwrapped too). -/
def stripAllQuotes (s : String) : String :=
  ⟨s.data.filter (fun c => c != '\'' && c != '"')⟩

/-- The comparison `x > n` read as purely numeric: true only for a number-valued `x`. -/
def numericGreaterThan (x : JSValue) (n : JSNumber) : Bool :=
  match x with
  | .number a => n.lt a
  | _ => false

/-- A record whose product name is the empty string. -/
def recordBlankName : Record :=
  [("id", .number (.fin 3)), ("product", .string ""), ("category", .string "Add-on"),
   ("price", .number (.fin 20)), ("units_sold", .number (.fin 1)),
   ("region", .string "Asia"), ("date", .string "2024-03-01")]

/-- A record whose product name contains the token `==`. -/
def recordOddName : Record :=
  [("id", .number (.fin 4)), ("product", .string "x==y"), ("category", .string "Software"),
   ("price", .number (.fin 5)), ("units_sold", .number (.fin 2)),
   ("region", .string "Europe"), ("date", .string "2024-04-01")]

/-! ## Where the model of the built-ins is exact -/

/-- Whether every character of `s` is ASCII. -/
def isAscii (s : String) : Bool := s.data.all (fun c => c.toNat < 128)

/-- The queries on which `toUpperCase` and `numberToString` are the JavaScript
conversions: `sort.order`, when present, is ASCII text, and `limit`, when present, is a
safe integer. -/
def withinRenderingModel (q : QueryAnalysis) : Bool :=
  (match q.sort with
    | some s => isAscii s.order
    | none => true) &&
  (match q.limit with
    | some n => decide (n ≤ 9007199254740991)
    | none => true)

/-- The own property names of `Object.prototype`, which every record inherits. -/
def objectPrototypeNames : List String :=
  ["constructor", "__defineGetter__", "__defineSetter__", "hasOwnProperty",
   "__lookupGetter__", "__lookupSetter__", "isPrototypeOf", "propertyIsEnumerable",
   "toString", "valueOf", "__proto__", "toLocaleString"]

/-- Numbers on which the exact arithmetic of the model is the arithmetic of the code:
`NaN`, the infinities, and the decimals of at most 15 significant digits with a
magnitude in the normal range of a double.  Rounding to the nearest double is
one-to-one and order-preserving on these decimals. -/
def JSNumber.Representable : JSNumber → Prop
  | .fin q => ∃ m e : ℤ, |m| < 10 ^ 15 ∧ -307 ≤ e ∧ e ≤ 292 ∧ q = (m : ℚ) * (10 : ℚ) ^ e
  | _ => True

/-- The comparison `item[field] == value` lies where the model is exact: the name is not
one the record merely inherits, and the numbers compared are representable. -/
def EqualityWithinModel (item : Record) (field value : String) : Prop :=
  (field ∉ objectPrototypeNames ∨ ownProp item field ≠ none) ∧
    (toNumber (getProp item field)).Representable ∧
    (stringToNumber value).Representable

/-- The comparison `item[field] > Number(value)` (or `<`) lies where the model is exact:
the numbers compared are representable. -/
def OrderingWithinModel (item : Record) (field value : String) : Prop :=
  (toNumber (getProp item field)).Representable ∧ (stringToNumber value).Representable

/-- A record whose stock count is held as text. -/
def recordTextCount : Record :=
  [("id", .number (.fin 5)), ("product", .string "C"), ("units_sold", .string "42")]

/-! # Theorems -/

/-! ## `split` yields at least two pieces when the separator occurs -/

theorem splitGo_length_pos (sep cs : List Char) (skip : Nat) (acc : List Char) :
    1 ≤ (splitGo sep cs skip acc).length := by
  induction cs generalizing skip acc with
  | nil => simp [splitGo]
  | cons c cs ih =>
    cases skip with
    | succ k => simpa [splitGo] using ih k acc
    | zero =>
      simp only [splitGo]
      split_ifs
      · simp
      · exact ih 0 (c :: acc)

theorem two_le_length_splitGo (sep cs acc : List Char) (hsep : sep ≠ [])
    (h : includesChars sep cs = true) : 2 ≤ (splitGo sep cs 0 acc).length := by
  induction cs generalizing acc with
  | nil =>
    cases sep with
    | nil => exact absurd rfl hsep
    | cons p ps => simp [includesChars, startsWithChars] at h
  | cons c cs ih =>
    simp only [splitGo]
    by_cases hst : startsWithChars sep (c :: cs) = true
    · rw [if_pos hst, List.length_cons]
      have := splitGo_length_pos sep cs (sep.length - 1) []
      omega
    · rw [if_neg hst]
      apply ih
      simp only [includesChars, Bool.or_eq_true] at h
      rcases h with h | h
      · exact absurd h hst
      · exact h

theorem two_le_length_split (s sep : String) (hsep : sep.data ≠ [])
    (h : includes s sep = true) : 2 ≤ (split s sep).length := by
  unfold split
  rw [List.length_map]
  exact two_le_length_splitGo sep.data s.data [] hsep h

/-! ## The filter callback: result and state update -/

theorem evalFilter_fst (item : Record) (filter : String) (st : ClauseState) :
    (evalFilter item filter st).1 = filterPredicate item filter := by
  unfold evalFilter filterPredicate
  split_ifs <;> rfl

theorem evalFilter_snd (item : Record) (filter : String) (st : ClauseState) :
    (evalFilter item filter st).2 = noteClause st (clauseText filter) := by
  unfold evalFilter clauseText
  split_ifs <;> rfl

theorem everyFilter_fst (item : Record) (filters : List String) (st : ClauseState) :
    (everyFilter item filters st).1 = filters.all (filterPredicate item) := by
  induction filters generalizing st with
  | nil => rfl
  | cons f fs ih =>
    simp only [everyFilter, List.all_cons]
    by_cases h : (evalFilter item f st).1 = true
    · rw [if_pos h, ih, ← evalFilter_fst item f st, h, Bool.true_and]
    · rw [if_neg h, ← evalFilter_fst item f st]
      simp only [Bool.not_eq_true] at h
      rw [h, Bool.false_and]

theorem filterRecords_fst (filters : List String) (records : List Record) (st : ClauseState) :
    (filterRecords filters records st).1 =
      records.filter (fun item => filters.all (filterPredicate item)) := by
  induction records generalizing st with
  | nil => rfl
  | cons r rs ih =>
    simp only [filterRecords, List.filter_cons, everyFilter_fst, ih]

theorem applyFilters_fst (q : QueryAnalysis) (records : List Record) :
    (applyFilters q records).1 =
      records.filter (fun item => (filtersOf q).all (filterPredicate item)) := by
  unfold applyFilters filtersOf
  cases hq : q.filters with
  | none => simp
  | some fs =>
    cases fs with
    | nil => simp
    | cons f fs => simp [filterRecords_fst]

/-! ## Records: own properties -/

theorem hasOwnProperty_iff (item : Record) (field : String) :
    hasOwnProperty item field = (ownProp item field).isSome := by
  induction item with
  | nil => rfl
  | cons p rest ih =>
    unfold hasOwnProperty at ih ⊢
    simp only [List.any_cons, ownProp]
    by_cases h : p.1 = field
    · simp [h]
    · simp [h, ih]

theorem getProp_of_ownProp (item : Record) (field : String) (v : JSValue)
    (h : ownProp item field = some v) : getProp item field = v := by
  induction item with
  | nil => simp [ownProp] at h
  | cons p rest ih =>
    simp only [ownProp, getProp] at h ⊢
    by_cases hp : p.1 = field
    · simpa [hp] using h
    · simp only [hp, if_false] at h ⊢
      exact ih h

theorem ownProp_setProp (obj : Record) (field key : String) (v : JSValue) :
    ownProp (setProp obj field v) key =
      if field = key then some v else ownProp obj key := by
  induction obj with
  | nil => simp [setProp, ownProp]
  | cons p rest ih =>
    by_cases hp : p.1 = field
    · by_cases hk : field = key
      · simp [setProp, ownProp, hp, hk]
      · have : ¬ p.1 = key := fun h => hk (hp ▸ h)
        simp [setProp, ownProp, hp, hk]
    · by_cases hk : field = key
      · subst hk
        simp [setProp, ownProp, hp, ih]
      · simp [setProp, ownProp, hp, hk, ih]

theorem keys_setProp_nodup (obj : Record) (field : String) (v : JSValue)
    (h : (obj.map Prod.fst).Nodup) : ((setProp obj field v).map Prod.fst).Nodup := by
  have hmem : ∀ (o : Record) (k : String),
      k ∈ (setProp o field v).map Prod.fst → k = field ∨ k ∈ o.map Prod.fst := by
    intro o
    induction o with
    | nil => intro k hk; simpa [setProp] using hk
    | cons p rest ih =>
      intro k hk
      by_cases hp : p.1 = field
      · simp only [setProp, hp, if_true, List.map_cons, List.mem_cons] at hk ⊢
        rcases hk with hk | hk
        · exact Or.inl hk
        · exact Or.inr (Or.inr hk)
      · simp only [setProp, hp, if_false, List.map_cons, List.mem_cons] at hk ⊢
        rcases hk with hk | hk
        · exact Or.inr (Or.inl hk)
        · rcases ih k hk with h1 | h1
          · exact Or.inl h1
          · exact Or.inr (Or.inr h1)
  induction obj with
  | nil => simp [setProp]
  | cons p rest ih =>
    rw [List.map_cons, List.nodup_cons] at h
    by_cases hp : p.1 = field
    · simp only [setProp, hp, if_true, List.map_cons, List.nodup_cons]
      exact ⟨hp ▸ h.1, h.2⟩
    · simp only [setProp, hp, if_false, List.map_cons, List.nodup_cons]
      refine ⟨?_, ih h.2⟩
      intro hk
      rcases hmem rest p.1 hk with h1 | h1
      · exact hp h1
      · exact h.1 h1

/-- The projection loop started from an arbitrary partial object. -/
theorem ownProp_foldl_project (item : Record) (fields : List String) (acc : Record)
    (key : String) :
    ownProp (fields.foldl
      (fun filteredItem field =>
        if hasOwnProperty item field then setProp filteredItem field (getProp item field)
        else filteredItem) acc) key =
      if key ∈ fields ∧ (ownProp item key).isSome then ownProp item key
      else ownProp acc key := by
  induction fields generalizing acc with
  | nil => simp
  | cons f fs ih =>
    rw [List.foldl_cons, ih]
    by_cases hin : key ∈ fs ∧ (ownProp item key).isSome = true
    · have : key ∈ f :: fs ∧ (ownProp item key).isSome = true :=
        ⟨List.mem_cons_of_mem _ hin.1, hin.2⟩
      rw [if_pos hin, if_pos this]
    · rw [if_neg hin]
      by_cases hown : hasOwnProperty item f = true
      · rw [if_pos hown, ownProp_setProp]
        by_cases hfk : f = key
        · subst hfk
          rw [hasOwnProperty_iff] at hown
          have hmem : f ∈ f :: fs ∧ (ownProp item f).isSome = true :=
            ⟨List.mem_cons_self _ _, hown⟩
          rw [if_pos rfl, if_pos hmem]
          obtain ⟨v, hv⟩ := Option.isSome_iff_exists.mp hown
          rw [hv, getProp_of_ownProp item f v hv]
        · have hnot : ¬ (key ∈ f :: fs ∧ (ownProp item key).isSome = true) := by
            rintro ⟨h1, h2⟩
            rcases List.mem_cons.mp h1 with h1 | h1
            · exact hfk h1.symm
            · exact hin ⟨h1, h2⟩
          rw [if_neg hfk, if_neg hnot]
      · rw [if_neg hown]
        have hnot : ¬ (key ∈ f :: fs ∧ (ownProp item key).isSome = true) := by
          rintro ⟨h1, h2⟩
          rcases List.mem_cons.mp h1 with h1 | h1
          · subst h1
            rw [hasOwnProperty_iff] at hown
            exact hown h2
          · exact hin ⟨h1, h2⟩
        rw [if_neg hnot]

theorem ownProp_projectItem (fields : List String) (item : Record) (key : String) :
    ownProp (projectItem fields item) key =
      if key ∈ fields then ownProp item key else none := by
  unfold projectItem
  rw [ownProp_foldl_project]
  by_cases hk : key ∈ fields
  · cases hv : ownProp item key <;> simp [hk, ownProp]
  · simp [hk, ownProp]

theorem keys_foldl_project_nodup (item : Record) (fields : List String) (acc : Record)
    (h : (acc.map Prod.fst).Nodup) :
    ((fields.foldl
      (fun filteredItem field =>
        if hasOwnProperty item field then setProp filteredItem field (getProp item field)
        else filteredItem) acc).map Prod.fst).Nodup := by
  induction fields generalizing acc with
  | nil => simpa using h
  | cons f fs ih =>
    rw [List.foldl_cons]
    apply ih
    split_ifs
    · exact keys_setProp_nodup acc f _ h
    · exact h

theorem keys_projectItem_nodup (fields : List String) (item : Record) :
    ((projectItem fields item).map Prod.fst).Nodup :=
  keys_foldl_project_nodup item fields [] (by simp)

theorem executeQuery_data (q : QueryAnalysis) (records : List Record) (rand : ℚ) :
    (executeQuery q records rand).data =
      if fieldsOf q = [] then (applyFilters q records).1
      else ((applyFilters q records).1).map (projectItem (fieldsOf q)) := by
  unfold executeQuery fieldsOf
  cases hq : q.fields with
  | none => simp
  | some fs =>
    cases fs with
    | nil => simp
    | cons f fs => simp

/-! ## Bookkeeping of clause fragments -/

theorem noteClause_of_noted (st : ClauseState) (c : Option String) (h : Noted st c) :
    noteClause st c = st := by
  cases c with
  | none => rfl
  | some condition =>
    have hm : condition ∈ st.uniqueConditions := h condition rfl
    simp [noteClause, noteCondition, hm]

theorem unique_subset_noteClause (st : ClauseState) (c : Option String) :
    st.uniqueConditions ⊆ (noteClause st c).uniqueConditions := by
  cases c with
  | none => exact fun _ h => h
  | some condition =>
    intro x hx
    simp only [noteClause, noteCondition]
    split_ifs
    · exact hx
    · exact List.mem_append_left _ hx

theorem noted_noteClause_self (st : ClauseState) (c : Option String) :
    Noted (noteClause st c) c := by
  intro condition hc
  subst hc
  simp only [noteClause, noteCondition]
  split_ifs with h
  · simpa using h
  · simp

theorem noted_mono (st : ClauseState) (c d : Option String) (h : Noted st c) :
    Noted (noteClause st d) c :=
  fun condition hc => unique_subset_noteClause st d (h condition hc)

theorem noted_foldl_of_noted (P : List (Option String)) (st : ClauseState)
    (c : Option String) (h : Noted st c) : Noted (P.foldl noteClause st) c := by
  induction P generalizing st with
  | nil => exact h
  | cons d P ih => exact ih _ (noted_mono st c d h)

theorem noted_foldl_of_mem (P : List (Option String)) (st : ClauseState)
    (c : Option String) (h : c ∈ P) : Noted (P.foldl noteClause st) c := by
  induction P generalizing st with
  | nil => cases h
  | cons d P ih =>
    rcases List.mem_cons.mp h with h | h
    · subst h
      exact noted_foldl_of_noted P _ c (noted_noteClause_self st c)
    · exact ih _ h

theorem foldl_noteClause_of_noted (P : List (Option String)) (st : ClauseState)
    (h : ∀ c ∈ P, Noted st c) : P.foldl noteClause st = st := by
  induction P with
  | nil => rfl
  | cons d P ih =>
    rw [List.foldl_cons, noteClause_of_noted st d (h d (List.mem_cons_self _ _))]
    exact ih (fun c hc => h c (List.mem_cons_of_mem _ hc))

theorem reached_init (L : List (Option String)) : Reached L ClauseState.init :=
  ⟨0, rfl⟩

theorem reached_foldl_take (L : List (Option String)) (st : ClauseState) (m : Nat)
    (h : Reached L st) : Reached L ((L.take m).foldl noteClause st) := by
  obtain ⟨j, hj⟩ := h
  by_cases hmj : m ≤ j
  · refine ⟨j, ?_⟩
    rw [foldl_noteClause_of_noted _ st, hj]
    intro c hc
    rw [hj]
    exact noted_foldl_of_mem _ _ c (List.take_subset_take_left L hmj hc)
  · have hjm : j ≤ m := Nat.le_of_not_le hmj
    refine ⟨m, ?_⟩
    have hsplit : L.take m = L.take j ++ (L.take m).drop j := by
      have := List.take_append_drop j (L.take m)
      rw [List.take_take, Nat.min_eq_left hjm] at this
      exact this.symm
    have hfix : (L.take j).foldl noteClause st = st := by
      apply foldl_noteClause_of_noted
      intro c hc
      rw [hj]
      exact noted_foldl_of_mem _ _ c hc
    calc (L.take m).foldl noteClause st
        = ((L.take m).drop j).foldl noteClause ((L.take j).foldl noteClause st) := by
          conv_lhs => rw [hsplit, List.foldl_append]
      _ = ((L.take m).drop j).foldl noteClause st := by rw [hfix]
      _ = ((L.take m).drop j).foldl noteClause
            ((L.take j).foldl noteClause ClauseState.init) := by rw [← hj]
      _ = (L.take m).foldl noteClause ClauseState.init := by
          conv_rhs => rw [hsplit, List.foldl_append]

theorem everyFilter_snd (item : Record) (filters : List String) (st : ClauseState) :
    ∃ m, (everyFilter item filters st).2 =
      ((filters.map clauseText).take m).foldl noteClause st := by
  induction filters generalizing st with
  | nil => exact ⟨0, rfl⟩
  | cons f fs ih =>
    simp only [everyFilter]
    by_cases h : (evalFilter item f st).1 = true
    · rw [if_pos h]
      obtain ⟨m, hm⟩ := ih (evalFilter item f st).2
      refine ⟨m + 1, ?_⟩
      rw [hm, evalFilter_snd]
      rfl
    · rw [if_neg h]
      refine ⟨1, ?_⟩
      rw [evalFilter_snd]
      rfl

theorem reached_everyFilter (item : Record) (filters : List String) (st : ClauseState)
    (h : Reached (filters.map clauseText) st) :
    Reached (filters.map clauseText) (everyFilter item filters st).2 := by
  obtain ⟨m, hm⟩ := everyFilter_snd item filters st
  rw [hm]
  exact reached_foldl_take _ st m h

theorem reached_filterRecords (filters : List String) (records : List Record)
    (st : ClauseState) (h : Reached (filters.map clauseText) st) :
    Reached (filters.map clauseText) (filterRecords filters records st).2 := by
  induction records generalizing st with
  | nil => exact h
  | cons r rs ih =>
    simp only [filterRecords]
    exact ih _ (reached_everyFilter r filters st h)

theorem reached_applyFilters (q : QueryAnalysis) (records : List Record) :
    Reached ((filtersOf q).map clauseText) (applyFilters q records).2 := by
  unfold applyFilters filtersOf
  cases hq : q.filters with
  | none => exact reached_init _
  | some fs =>
    simp only [Option.getD_some]
    split_ifs
    · exact reached_filterRecords fs records _ (reached_init _)
    · exact reached_init _

theorem firstIdx_append_of_mem (a : String) (P Q : List (Option String))
    (h : some a ∈ P) : firstIdx a (P ++ Q) = firstIdx a P := by
  induction P with
  | nil => cases h
  | cons o P ih =>
    by_cases ho : o = some a
    · simp [firstIdx, ho]
    · have : some a ∈ P := by
        rcases List.mem_cons.mp h with h | h
        · exact absurd h.symm ho
        · exact h
      simp [firstIdx, ho, ih this]

theorem firstIdx_append_of_not_mem (a : String) (P Q : List (Option String))
    (h : some a ∉ P) : firstIdx a (P ++ Q) = P.length + firstIdx a Q := by
  induction P with
  | nil => simp
  | cons o P ih =>
    have ho : ¬ o = some a := fun e => h (e ▸ List.mem_cons_self _ _)
    have hP : some a ∉ P := fun e => h (List.mem_cons_of_mem _ e)
    have step : firstIdx a (o :: (P ++ Q)) = firstIdx a (P ++ Q) + 1 := by
      simp [firstIdx, ho]
    rw [List.cons_append, step, ih hP, List.length_cons]
    omega

theorem firstIdx_lt_length (a : String) (P : List (Option String))
    (h : some a ∈ P) : firstIdx a P < P.length := by
  induction P with
  | nil => cases h
  | cons o P ih =>
    by_cases ho : o = some a
    · simp [firstIdx, ho]
    · have : some a ∈ P := by
        rcases List.mem_cons.mp h with h | h
        · exact absurd h.symm ho
        · exact h
      simp [firstIdx, ho, ih this]

theorem faithful_init : Faithful [] ClauseState.init := by
  refine ⟨rfl, List.nodup_nil, ?_, ?_⟩
  · intro c; simp [ClauseState.init]
  · intro a b ha; simp [ClauseState.init] at ha

theorem faithful_noteClause (P : List (Option String)) (st : ClauseState)
    (o : Option String) (h : Faithful P st) : Faithful (P ++ [o]) (noteClause st o) := by
  obtain ⟨hsync, hnd, hmem, hord⟩ := h
  have keep : ∀ a, a ∈ st.whereClauses →
      firstIdx a (P ++ [o]) = firstIdx a P := fun a ha =>
    firstIdx_append_of_mem a P [o] ((hmem a).mp ha)
  cases o with
  | none =>
    refine ⟨hsync, hnd, ?_, ?_⟩
    · intro c; simp [noteClause, hmem c]
    · intro a b ha hb
      simp only [noteClause] at ha hb ⊢
      rw [keep a ha, keep b hb]
      exact hord a b ha hb
  | some x =>
    by_cases hx : x ∈ st.uniqueConditions
    · have hst : noteClause st (some x) = st := by simp [noteClause, noteCondition, hx]
      rw [hst]
      refine ⟨hsync, hnd, ?_, ?_⟩
      · intro c
        rw [hsync] at hx
        constructor
        · intro hc; exact List.mem_append_left _ ((hmem c).mp hc)
        · intro hc
          rcases List.mem_append.mp hc with hc | hc
          · exact (hmem c).mpr hc
          · have : c = x := by simpa using hc
            exact this ▸ hx
      · intro a b ha hb
        rw [keep a ha, keep b hb]
        exact hord a b ha hb
    · have hst : noteClause st (some x) =
          ⟨st.whereClauses ++ [x], st.uniqueConditions ++ [x]⟩ := by
        simp [noteClause, noteCondition, hx]
      rw [hst]
      have hxw : x ∉ st.whereClauses := hsync ▸ hx
      have hxP : some x ∉ P := fun hc => hxw ((hmem x).mpr hc)
      have ixw : (st.whereClauses ++ [x]).indexOf x = st.whereClauses.length := by
        rw [List.indexOf_append_of_not_mem hxw]; simp
      have ixP : firstIdx x (P ++ [some x]) = P.length := by
        rw [firstIdx_append_of_not_mem x P _ hxP]; simp [firstIdx]
      have old : ∀ a, a ∈ st.whereClauses →
          (st.whereClauses ++ [x]).indexOf a = st.whereClauses.indexOf a ∧
          st.whereClauses.indexOf a < st.whereClauses.length ∧
          firstIdx a P < P.length := fun a ha =>
        ⟨List.indexOf_append_of_mem ha, List.indexOf_lt_length.mpr ha,
          firstIdx_lt_length a P ((hmem a).mp ha)⟩
      refine ⟨by simp [hsync], ?_, ?_, ?_⟩
      · simp only
        rw [List.nodup_append]
        refine ⟨hnd, List.nodup_singleton x, ?_⟩
        intro y hy hy2
        have : y = x := by simpa using hy2
        exact hxw (this ▸ hy)
      · intro c
        simp only [List.mem_append, List.mem_singleton, Option.some.injEq]
        rw [hmem c]
      · intro a b ha hb
        simp only [List.mem_append, List.mem_singleton] at ha hb
        simp only
        rcases ha with ha | ha <;> rcases hb with hb | hb
        · rw [(old a ha).1, (old b hb).1, keep a ha, keep b hb]
          exact hord a b ha hb
        · subst hb
          rw [(old a ha).1, ixw, keep a ha, ixP]
          exact iff_of_true (old a ha).2.1 (old a ha).2.2
        · subst ha
          rw [(old b hb).1, ixw, keep b hb, ixP]
          exact iff_of_false (Nat.not_lt.mpr (Nat.le_of_lt (old b hb).2.1))
            (Nat.not_lt.mpr (Nat.le_of_lt (old b hb).2.2))
        · subst ha; subst hb
          exact iff_of_false (Nat.lt_irrefl _) (Nat.lt_irrefl _)

theorem faithful_foldl (P : List (Option String)) :
    Faithful P (P.foldl noteClause ClauseState.init) := by
  induction P using List.reverseRecOn with
  | nil => exact faithful_init
  | append_singleton P o ih =>
    rw [List.foldl_append]
    exact faithful_noteClause P _ o ih

/-- The final `whereClauses` of a scan: no repetition, only fragments of the filters,
in the order of their first occurrence among the filters. -/
theorem reached_ordered (L : List (Option String)) (st : ClauseState) (h : Reached L st) :
    st.whereClauses.Nodup ∧
    (∀ a ∈ st.whereClauses, some a ∈ L) ∧
    (∀ a ∈ st.whereClauses, ∀ b ∈ st.whereClauses,
      (st.whereClauses.indexOf a < st.whereClauses.indexOf b ↔
        firstIdx a L < firstIdx b L)) := by
  obtain ⟨j, hj⟩ := h
  obtain ⟨_, hnd, hmem, hord⟩ := faithful_foldl (L.take j)
  rw [← hj] at hnd hmem hord
  have up : ∀ a, a ∈ st.whereClauses → firstIdx a L = firstIdx a (L.take j) := by
    intro a ha
    conv_lhs => rw [← List.take_append_drop j L]
    exact firstIdx_append_of_mem a _ _ ((hmem a).mp ha)
  refine ⟨hnd, fun a ha => List.mem_of_mem_take ((hmem a).mp ha), ?_⟩
  intro a ha b hb
  rw [up a ha, up b hb]
  exact hord a b ha hb

/-! ## Claims about `executeQuery` -/

/-- C1. Filter phase: when no projection is requested, `data` is the sub-sequence of
the input records, in input order, on which every filter's predicate is true (a plain
conjunction, whatever the short-circuiting and the clause bookkeeping did); with no
filter at all `data` is the input sequence itself. -/
theorem C1_filter_phase (q : QueryAnalysis) (records : List Record) (rand : ℚ)
    (hfields : fieldsOf q = []) :
    (executeQuery q records rand).data =
        records.filter (fun item => (filtersOf q).all (fun f => filterPredicate item f)) ∧
      (filtersOf q = [] → (executeQuery q records rand).data = records) := by
  have hdata : (executeQuery q records rand).data =
      records.filter (fun item => (filtersOf q).all (fun f => filterPredicate item f)) := by
    rw [executeQuery_data, if_pos hfields, applyFilters_fst]
  refine ⟨hdata, fun hnone => ?_⟩
  rw [hdata, hnone]
  simp

theorem C1_filter_phase_witness :
    (executeQuery repeatedFilterQuery [recordA, recordB] 0).data = [recordA] ∧
      (executeQuery limitZeroQuery [recordA, recordB] 0).data = [recordA, recordB] :=
  ⟨(C1_filter_phase repeatedFilterQuery [recordA, recordB] 0 (by decide)).1.trans (by decide),
   (C1_filter_phase limitZeroQuery [recordA, recordB] 0 (by decide)).2 (by decide)⟩

/-- C2. Projection phase: with a non-empty field list, `data` pairs off, in order, with
the records that pass every filter; each output record owns exactly the requested keys
that its source record owns, with the source's values, each key once. -/
theorem C2_projection_phase (q : QueryAnalysis) (records : List Record) (rand : ℚ)
    (hfields : fieldsOf q ≠ []) :
    List.Forall₂
      (fun (out src : Record) =>
        (∀ key, ownProp out key = if key ∈ fieldsOf q then ownProp src key else none) ∧
        (out.map Prod.fst).Nodup)
      (executeQuery q records rand).data
      (records.filter (fun item => (filtersOf q).all (fun f => filterPredicate item f))) := by
  rw [executeQuery_data, if_neg hfields, applyFilters_fst, List.forall₂_map_left_iff]
  apply List.forall₂_same.mpr
  intro item _
  exact ⟨fun key => ownProp_projectItem (fieldsOf q) item key,
    keys_projectItem_nodup (fieldsOf q) item⟩

theorem C2_projection_phase_witness :
    List.Forall₂
      (fun (out src : Record) =>
        (∀ key, ownProp out key = if key ∈ fieldsOf exampleQuery then ownProp src key else none) ∧
        (out.map Prod.fst).Nodup)
      (executeQuery exampleQuery [recordA, recordB] 0).data
      ([recordA, recordB].filter
        (fun item => (filtersOf exampleQuery).all (fun f => filterPredicate item f))) :=
  C2_projection_phase exampleQuery [recordA, recordB] 0 (by decide)

/-- C3. The `WHERE` segment depends on the records scanned: a record set whose
records all fail the first filter yields only the first fragment, and an empty record
set yields no `WHERE` segment, although both filters carry an operator token. -/
theorem C3_where_depends_on_records :
    (executeQuery twoFilterQuery [recordB] 0).sqlQuery =
        "SELECT * FROM products WHERE price > 500" ∧
      (executeQuery twoFilterQuery [] 0).sqlQuery = "SELECT * FROM products" ∧
      (executeQuery twoFilterQuery [recordA, recordB] 0).sqlQuery =
        "SELECT * FROM products WHERE price > 500 AND category = 'Software'" := by
  decide

/-- C4. The fragments joined into the `WHERE` segment are pairwise distinct, each is
the fragment of some filter, and they stand in first-seen order: `a` precedes `b` iff
the first filter rendering to `a` comes before the first filter rendering to `b`. -/
theorem C4_fragments_distinct_first_seen (q : QueryAnalysis) (records : List Record)
    (rand : ℚ) :
    (executeQuery q records rand).sqlQuery = buildSql q (finalClauses q records) ∧
      (finalClauses q records).Nodup ∧
      (∀ a ∈ finalClauses q records, some a ∈ (filtersOf q).map clauseText) ∧
      (∀ a ∈ finalClauses q records, ∀ b ∈ finalClauses q records,
        ((finalClauses q records).indexOf a < (finalClauses q records).indexOf b ↔
          firstIdx a ((filtersOf q).map clauseText) <
            firstIdx b ((filtersOf q).map clauseText))) := by
  obtain ⟨h1, h2, h3⟩ := reached_ordered _ _ (reached_applyFilters q records)
  exact ⟨rfl, h1, h2, h3⟩

theorem C4_fragments_distinct_first_seen_witness :
    (finalClauses repeatedFilterQuery [recordA, recordB]).indexOf "region = 'Europe'" <
        (finalClauses repeatedFilterQuery [recordA, recordB]).indexOf "price > 500" ↔
      firstIdx "region = 'Europe'" ((filtersOf repeatedFilterQuery).map clauseText) <
        firstIdx "price > 500" ((filtersOf repeatedFilterQuery).map clauseText) :=
  (C4_fragments_distinct_first_seen repeatedFilterQuery [recordA, recordB] 0).2.2.2
    "region = 'Europe'" (by decide) "price > 500" (by decide)

/-- C5 as stated fails: with `limit: 0` the code renders no `LIMIT` segment, whereas the
rendering rule with `limit` counted as present gives `... LIMIT 0`. -/
theorem C5_limit_zero_counterexample :
    (executeQuery limitZeroQuery [recordA, recordB] 0).sqlQuery = "SELECT * FROM products" ∧
      canonicalQuery (fieldsOf limitZeroQuery) (finalClauses limitZeroQuery [recordA, recordB])
        limitZeroQuery.sort limitZeroQuery.limit = "SELECT * FROM products LIMIT 0" ∧
      (executeQuery limitZeroQuery [recordA, recordB] 0).sqlQuery ≠
        canonicalQuery (fieldsOf limitZeroQuery)
          (finalClauses limitZeroQuery [recordA, recordB])
          limitZeroQuery.sort limitZeroQuery.limit := by
  decide

/-- C5, amended. Rendering phase, for a query whose `sort.order` is ASCII text and whose
`limit` is a safe integer: `sqlQuery` is `SELECT`, the fields joined by `, ` (or `*`),
` FROM products`, then ` WHERE ` and the fragments joined by ` AND ` iff there is a
fragment, ` ORDER BY field ORDER` iff `sort` is present, and ` LIMIT n` iff `limit` is
present and not zero; sort and limit are taken unchanged from the query. -/
theorem C5_rendering_phase (q : QueryAnalysis) (records : List Record) (rand : ℚ)
    (_hmodel : withinRenderingModel q = true) :
    (executeQuery q records rand).sqlQuery =
      canonicalQuery (fieldsOf q) (finalClauses q records) q.sort
        (if q.limit = some 0 then none else q.limit) := by
  have hsel : (match q.fields with
      | some fields => if fields.length > 0 then join fields ", " else "*"
      | none => "*") = (if fieldsOf q = [] then "*" else join (fieldsOf q) ", ") := by
    unfold fieldsOf
    cases q.fields with
    | none => rfl
    | some fs => cases fs <;> simp
  have hlim : (match q.limit with
      | some n => if (n != 0) = true then " LIMIT " ++ numberToString n else ""
      | none => "") =
      (match (if q.limit = some 0 then none else q.limit) with
      | some n => " LIMIT " ++ numberToString n
      | none => "") := by
    cases q.limit with
    | none => rfl
    | some n =>
      by_cases hn : n = 0
      · subst hn; rfl
      · simp [hn]
  have hwhere : (if (finalClauses q records).length > 0
        then " WHERE " ++ join (finalClauses q records) " AND " else "") =
      (if finalClauses q records = [] then ""
        else " WHERE " ++ join (finalClauses q records) " AND ") := by
    cases finalClauses q records <;> simp
  show buildSql q (finalClauses q records) = _
  unfold buildSql canonicalQuery
  simp only [hsel, hlim, hwhere]

theorem C5_rendering_phase_witness :
    withinRenderingModel heavyQuery = true ∧
      (executeQuery heavyQuery [recordA, recordB] 0).sqlQuery =
        "SELECT * FROM products WHERE price > 500 AND region = 'Europe' AND " ++
          "category = 'Software' AND units_sold < 100 ORDER BY price DESC LIMIT 10" :=
  ⟨by decide, (C5_rendering_phase heavyQuery [recordA, recordB] 0 (by decide)).trans
    (by decide)⟩

/-- C6. End-to-end example: the two example records and the example query give
`data = [{product: "A", price: 600}]` and the stated `sqlQuery`. -/
theorem C6_end_to_end (rand : ℚ) :
    (executeQuery exampleQuery [recordA, recordB] rand).data =
        [[("product", .string "A"), ("price", .number (.fin 600))]] ∧
      (executeQuery exampleQuery [recordA, recordB] rand).sqlQuery =
        "SELECT product, price FROM products WHERE price > 500 AND category = 'Software'" := by
  have h : (executeQuery exampleQuery [recordA, recordB] 0).data =
        [[("product", .string "A"), ("price", .number (.fin 600))]] ∧
      (executeQuery exampleQuery [recordA, recordB] 0).sqlQuery =
        "SELECT product, price FROM products WHERE price > 500 AND category = 'Software'" := by
    decide
  exact h

/-! ## Claims about `calculateComplexity` and `validateQuery` -/

theorem lengthOr_zero (xs : Option (List String)) : lengthOr xs 0 = (xs.getD []).length := by
  cases xs with
  | none => rfl
  | some l => cases l <;> simp [lengthOr]

theorem lengthOr_seven (xs : Option (List String)) :
    ((lengthOr xs 7 : Nat) : ℚ) =
      if xs.getD [] = [] then (7 : ℚ) else ((xs.getD []).length : ℚ) := by
  cases xs with
  | none => simp [lengthOr]
  | some l => cases l <;> simp [lengthOr]

theorem complexityScore_eq (q : QueryAnalysis) :
    complexityScore q =
      2 * ((filtersOf q).length : ℚ)
        + (1 / 2) * (if fieldsOf q = [] then (7 : ℚ) else ((fieldsOf q).length : ℚ))
        + (if q.sort.isSome then 1 else 0)
        + (if limitTruthy q.limit then 1 / 2 else 0) := by
  unfold complexityScore filtersOf fieldsOf
  simp only [lengthOr_zero, lengthOr_seven]
  by_cases hs : q.sort.isSome = true <;> by_cases hl : limitTruthy q.limit = true <;>
    simp only [hs, hl, if_true, if_false, Bool.false_eq_true] <;> ring

theorem complexityScore_nonneg (q : QueryAnalysis) : 0 ≤ complexityScore q := by
  rw [complexityScore_eq]
  have h1 : (0 : ℚ) ≤ ((filtersOf q).length : ℚ) := Nat.cast_nonneg _
  have h2 : (0 : ℚ) ≤ (if fieldsOf q = [] then (7 : ℚ) else ((fieldsOf q).length : ℚ)) := by
    split_ifs
    · norm_num
    · exact Nat.cast_nonneg _
  have h3 : (0 : ℚ) ≤ (if q.sort.isSome then (1 : ℚ) else 0) := by split_ifs <;> norm_num
  have h4 : (0 : ℚ) ≤ (if limitTruthy q.limit then (1 / 2 : ℚ) else 0) := by
    split_ifs <;> norm_num
  linarith

/-- C7 as stated fails: with `limit: 0` (no filters, no fields, no sort) the code returns
3.5, whereas the formula with the limit counted as present gives 4. -/
theorem C7_limit_zero_counterexample :
    calculateComplexity limitZeroQuery = 7 / 2 ∧
      complexityFormula (filtersOf limitZeroQuery) (fieldsOf limitZeroQuery)
        limitZeroQuery.sort.isSome limitZeroQuery.limit.isSome = 4 ∧
      calculateComplexity limitZeroQuery ≠
        complexityFormula (filtersOf limitZeroQuery) (fieldsOf limitZeroQuery)
          limitZeroQuery.sort.isSome limitZeroQuery.limit.isSome := by
  have h1 : calculateComplexity limitZeroQuery = 7 / 2 := by
    norm_num [calculateComplexity, complexityScore_eq, limitZeroQuery, filtersOf, fieldsOf,
      limitTruthy]
  have h2 : complexityFormula (filtersOf limitZeroQuery) (fieldsOf limitZeroQuery)
      limitZeroQuery.sort.isSome limitZeroQuery.limit.isSome = 4 := by
    norm_num [complexityFormula, limitZeroQuery, filtersOf, fieldsOf]
  refine ⟨h1, h2, ?_⟩
  rw [h1, h2]
  norm_num

/-- C7, amended. `calculateComplexity` is `min(10, 2*|filters| + 0.5*(|fields| if fields
is non-empty, else 7) + (1 if sort is present) + (0.5 if limit is present and not
zero))`, and `validateQuery` and `executeQuery` report that same value. -/
theorem C7_complexity_formula (q : QueryAnalysis) (records : List Record) (rand : ℚ) :
    calculateComplexity q =
        complexityFormula (filtersOf q) (fieldsOf q) q.sort.isSome
          (decide (q.limit ≠ none ∧ q.limit ≠ some 0)) ∧
      (validateQuery q).complexity = calculateComplexity q ∧
      (executeQuery q records rand).stats.complexity = calculateComplexity q := by
  refine ⟨?_, rfl, rfl⟩
  have hl : limitTruthy q.limit = decide (q.limit ≠ none ∧ q.limit ≠ some 0) := by
    cases q.limit with
    | none => simp [limitTruthy]
    | some n => cases n <;> simp [limitTruthy]
  unfold calculateComplexity complexityFormula
  rw [complexityScore_eq, hl]

/-- C8. The complexity returned by `calculateComplexity`, which is also the
`complexity` member of `validateQuery`'s result, lies in the closed interval [0, 10]. -/
theorem C8_complexity_bounds (q : QueryAnalysis) :
    (0 ≤ calculateComplexity q ∧ calculateComplexity q ≤ 10) ∧
      (0 ≤ (validateQuery q).complexity ∧ (validateQuery q).complexity ≤ 10) := by
  have h : 0 ≤ calculateComplexity q ∧ calculateComplexity q ≤ 10 :=
    ⟨le_min (by norm_num) (complexityScore_nonneg q), min_le_left _ _⟩
  exact ⟨h, h⟩

/-- C9 as stated fails in its example: the score of the four-filter query before the
clamp is 2*4 + 0.5*7 + 1 + 0.5 = 13, not 12.5. -/
theorem C9_example_score_counterexample :
    complexityScore heavyQuery = 13 ∧ complexityScore heavyQuery ≠ 25 / 2 := by
  have h : complexityScore heavyQuery = 13 := by
    norm_num [complexityScore_eq, heavyQuery, filtersOf, fieldsOf, limitTruthy]
  refine ⟨h, ?_⟩
  rw [h]
  norm_num

/-- C9, amended. `calculateComplexity` is monotonically non-decreasing in the number of
filters, the other members being equal; the four-filter example has score 13 before
the clamp and result 10. -/
theorem C9_complexity_monotone :
    (∀ q1 q2 : QueryAnalysis, q1.fields = q2.fields → q1.sort = q2.sort →
        q1.limit = q2.limit → (filtersOf q1).length ≤ (filtersOf q2).length →
        calculateComplexity q1 ≤ calculateComplexity q2) ∧
      complexityScore heavyQuery = 13 ∧ calculateComplexity heavyQuery = 10 := by
  refine ⟨?_, ?_, ?_⟩
  · intro q1 q2 hf hs hl hlen
    unfold calculateComplexity
    apply min_le_min le_rfl
    rw [complexityScore_eq, complexityScore_eq]
    have hf2 : fieldsOf q1 = fieldsOf q2 := by unfold fieldsOf; rw [hf]
    rw [hf2, hs, hl]
    have : ((filtersOf q1).length : ℚ) ≤ ((filtersOf q2).length : ℚ) := by exact_mod_cast hlen
    linarith
  · norm_num [complexityScore_eq, heavyQuery, filtersOf, fieldsOf, limitTruthy]
  · norm_num [calculateComplexity, complexityScore_eq, heavyQuery, filtersOf, fieldsOf,
      limitTruthy]

theorem C9_complexity_monotone_witness :
    calculateComplexity twoFilterQuery ≤ calculateComplexity { twoFilterQuery with
      filters := some ["price > 500", "category == 'Software'", "units_sold < 100"] } :=
  C9_complexity_monotone.1 twoFilterQuery { twoFilterQuery with
      filters := some ["price > 500", "category == 'Software'", "units_sold < 100"] }
    (by decide) (by decide) (by decide) (by decide)

theorem startsWithChars_append (p x : List Char) : startsWithChars p (p ++ x) = true := by
  induction p with
  | nil => rfl
  | cons c p ih => simp [startsWithChars, ih]

theorem isInvalidFieldsEntry_fieldEntry (x : String) :
    isInvalidFieldsEntry ("Invalid fields requested: " ++ x) = true := by
  unfold isInvalidFieldsEntry
  rw [String.data_append]
  exact startsWithChars_append _ _

theorem isInvalidFieldsEntry_filterEntry (x : String) :
    isInvalidFieldsEntry ("Some filters have invalid syntax: " ++ x) = false := by
  unfold isInvalidFieldsEntry
  rw [String.data_append]
  rfl

theorem validateQuery_issues (q : QueryAnalysis) :
    (validateQuery q).issues =
      (if invalidFieldsOf (fieldsOf q) = [] then []
        else ["Invalid fields requested: " ++ join (invalidFieldsOf (fieldsOf q)) ", "]) ++
      (if invalidFiltersOf (filtersOf q) = [] then []
        else ["Some filters have invalid syntax: " ++
          join (invalidFiltersOf (filtersOf q)) ", "]) := by
  have h1 : fieldIssues q [] =
      (if invalidFieldsOf (fieldsOf q) = [] then []
        else ["Invalid fields requested: " ++ join (invalidFieldsOf (fieldsOf q)) ", "]) := by
    unfold fieldIssues fieldsOf
    cases q.fields with
    | none => simp [invalidFieldsOf]
    | some fs =>
      cases fs with
      | nil => simp [invalidFieldsOf]
      | cons f fs =>
        cases h : invalidFieldsOf (f :: fs) <;> simp [h]
  have h2 : ∀ issues, filterIssues q issues = issues ++
      (if invalidFiltersOf (filtersOf q) = [] then []
        else ["Some filters have invalid syntax: " ++
          join (invalidFiltersOf (filtersOf q)) ", "]) := by
    intro issues
    unfold filterIssues filtersOf
    cases q.filters with
    | none => simp [invalidFiltersOf]
    | some fs =>
      cases h : invalidFiltersOf fs <;> simp [h]
  show filterIssues q (fieldIssues q []) = _
  rw [h2, h1]

theorem mem_invalidFieldsOf (fields : List String) (f : String) :
    f ∈ invalidFieldsOf fields ↔ f ∈ fields ∧ f ∉ validFields := by
  simp [invalidFieldsOf]

theorem invalidFieldsOf_eq (fields : List String) :
    invalidFieldsOf fields = fields.filter (fun f => decide (f ∉ validFields)) := by
  unfold invalidFieldsOf
  congr 1
  funext f
  simp

/-- C10. Field check of `validateQuery`: `issues` has an invalid-fields entry iff some
requested field is not one of the seven schema names; that entry is
`Invalid fields requested: ` followed by the non-schema fields, in request order,
joined by `, `.  Hence a valid query requests schema fields only, and requesting
`["id", "bogus"]` makes the query invalid with an issue naming `bogus`. -/
theorem C10_field_check (q : QueryAnalysis) :
    ((∃ e ∈ (validateQuery q).issues, isInvalidFieldsEntry e = true) ↔
        ∃ f ∈ fieldsOf q,
          f ∉ ["id", "product", "category", "price", "units_sold", "region", "date"]) ∧
      (∀ e ∈ (validateQuery q).issues, isInvalidFieldsEntry e = true →
        e = "Invalid fields requested: " ++
          join ((fieldsOf q).filter (fun f => decide
            (f ∉ ["id", "product", "category", "price", "units_sold", "region", "date"])))
            ", ") ∧
      ((validateQuery q).isValid = true → ∀ f ∈ fieldsOf q,
        f ∈ ["id", "product", "category", "price", "units_sold", "region", "date"]) ∧
      (q.fields = some ["id", "bogus"] →
        (validateQuery q).isValid = false ∧
          "Invalid fields requested: bogus" ∈ (validateQuery q).issues) := by
  have hissues := validateQuery_issues q
  have hvalid : validFields =
      ["id", "product", "category", "price", "units_sold", "region", "date"] := rfl
  have hbad : invalidFieldsOf (fieldsOf q) ≠ [] ↔ ∃ f ∈ fieldsOf q, f ∉ validFields := by
    constructor
    · intro h
      obtain ⟨f, hf⟩ := List.exists_mem_of_ne_nil _ h
      exact ⟨f, ((mem_invalidFieldsOf _ f).mp hf).1, ((mem_invalidFieldsOf _ f).mp hf).2⟩
    · rintro ⟨f, hf1, hf2⟩
      exact List.ne_nil_of_mem ((mem_invalidFieldsOf _ f).mpr ⟨hf1, hf2⟩)
  have hentry : ∀ e ∈ (validateQuery q).issues, isInvalidFieldsEntry e = true →
      invalidFieldsOf (fieldsOf q) ≠ [] ∧
        e = "Invalid fields requested: " ++ join (invalidFieldsOf (fieldsOf q)) ", " := by
    intro e he hinv
    rw [hissues] at he
    rcases List.mem_append.mp he with he | he
    · by_cases hnil : invalidFieldsOf (fieldsOf q) = []
      · rw [if_pos hnil] at he; cases he
      · rw [if_neg hnil] at he
        exact ⟨hnil, List.mem_singleton.mp he⟩
    · by_cases hnil : invalidFiltersOf (filtersOf q) = []
      · rw [if_pos hnil] at he; cases he
      · rw [if_neg hnil] at he
        rw [List.mem_singleton.mp he, isInvalidFieldsEntry_filterEntry] at hinv
        cases hinv
  refine ⟨⟨?_, ?_⟩, ?_, ?_, ?_⟩
  · rintro ⟨e, he, hinv⟩
    rw [← hvalid]
    exact hbad.mp (hentry e he hinv).1
  · intro h
    rw [← hvalid] at h
    have hnil := hbad.mpr h
    refine ⟨"Invalid fields requested: " ++ join (invalidFieldsOf (fieldsOf q)) ", ", ?_,
      isInvalidFieldsEntry_fieldEntry _⟩
    rw [hissues, if_neg hnil]
    exact List.mem_append_left _ (List.mem_singleton.mpr rfl)
  · intro e he hinv
    rw [← hvalid, ← invalidFieldsOf_eq]
    exact (hentry e he hinv).2
  · intro hv f hf
    rw [← hvalid]
    by_contra hnot
    have hnil := hbad.mpr ⟨f, hf, hnot⟩
    have hlen : (validateQuery q).issues.length = 0 := by
      have : ((validateQuery q).issues.length == 0) = true := hv
      simpa using this
    rw [hissues, if_neg hnil] at hlen
    simp at hlen
  · intro hf
    have hfields : fieldsOf q = ["id", "bogus"] := by unfold fieldsOf; rw [hf]; rfl
    have hinv : invalidFieldsOf (fieldsOf q) = ["bogus"] := by rw [hfields]; decide
    have hmem : "Invalid fields requested: bogus" ∈ (validateQuery q).issues := by
      rw [hissues, hinv, if_neg (by simp)]
      exact List.mem_append_left _ (List.mem_singleton.mpr (by decide))
    refine ⟨?_, hmem⟩
    show ((validateQuery q).issues.length == 0) = false
    cases hi : (validateQuery q).issues with
    | nil => rw [hi] at hmem; cases hmem
    | cons a l => rfl

theorem C10_field_check_witness :
    ((validateQuery exampleQuery).isValid = true ∧
        ∀ f ∈ fieldsOf exampleQuery,
          f ∈ ["id", "product", "category", "price", "units_sold", "region", "date"]) ∧
      ((validateQuery bogusFieldQuery).isValid = false ∧
        "Invalid fields requested: bogus" ∈ (validateQuery bogusFieldQuery).issues) :=
  ⟨⟨by decide, (C10_field_check exampleQuery).2.2.1 (by decide)⟩,
   (C10_field_check bogusFieldQuery).2.2.2 (by decide)⟩

/-! ## Claims about the filter syntax check -/

theorem isFilterSyntaxEntry_filterEntry (x : String) :
    isFilterSyntaxEntry ("Some filters have invalid syntax: " ++ x) = true := by
  unfold isFilterSyntaxEntry
  rw [String.data_append]
  exact startsWithChars_append _ _

theorem isFilterSyntaxEntry_fieldEntry (x : String) :
    isFilterSyntaxEntry ("Invalid fields requested: " ++ x) = false := by
  unfold isFilterSyntaxEntry
  rw [String.data_append]
  rfl

theorem mem_invalidFiltersOf (filters : List String) (f : String) :
    f ∈ invalidFiltersOf filters ↔ f ∈ filters ∧ hasOperatorToken f = false := by
  unfold invalidFiltersOf hasOperatorToken
  rw [List.mem_filter]
  cases includes f "==" <;> cases includes f "!=" <;> cases includes f ">" <;>
    cases includes f "<" <;> simp

theorem invalidFiltersOf_eq (filters : List String) :
    invalidFiltersOf filters = filters.filter (fun f => !hasOperatorToken f) := by
  unfold invalidFiltersOf hasOperatorToken
  congr 1
  funext f
  cases includes f "==" <;> cases includes f "!=" <;> cases includes f ">" <;>
    cases includes f "<" <;> rfl

/-- The syntax entries of `issues`: their presence and their text. -/
theorem syntaxEntry_of_mem (q : QueryAnalysis) (e : String)
    (he : e ∈ (validateQuery q).issues) (hsyn : isFilterSyntaxEntry e = true) :
    invalidFiltersOf (filtersOf q) ≠ [] ∧
      e = "Some filters have invalid syntax: " ++ join (invalidFiltersOf (filtersOf q)) ", " := by
  rw [validateQuery_issues] at he
  rcases List.mem_append.mp he with he | he
  · by_cases hnil : invalidFieldsOf (fieldsOf q) = []
    · rw [if_pos hnil] at he; cases he
    · rw [if_neg hnil] at he
      rw [List.mem_singleton.mp he, isFilterSyntaxEntry_fieldEntry] at hsyn
      cases hsyn
  · by_cases hnil : invalidFiltersOf (filtersOf q) = []
    · rw [if_pos hnil] at he; cases he
    · rw [if_neg hnil] at he
      exact ⟨hnil, List.mem_singleton.mp he⟩

theorem syntaxEntry_mem (q : QueryAnalysis) (h : invalidFiltersOf (filtersOf q) ≠ []) :
    "Some filters have invalid syntax: " ++ join (invalidFiltersOf (filtersOf q)) ", " ∈
      (validateQuery q).issues := by
  rw [validateQuery_issues, if_neg h]
  exact List.mem_append_right _ (List.mem_singleton.mpr rfl)

/-- C11. Filter syntax check of `validateQuery`: `issues` has a filter-syntax entry iff
some filter contains none of `==`, `!=`, `>`, `<`; that entry is
`Some filters have invalid syntax: ` followed by exactly those filters, in filter
order, joined by `, `.  A filter containing one of the four tokens is never among the
reported ones, whatever field or value it mentions. -/
theorem C11_filter_syntax_check (q : QueryAnalysis) :
    ((∃ e ∈ (validateQuery q).issues, isFilterSyntaxEntry e = true) ↔
        ∃ f ∈ filtersOf q,
          includes f "==" = false ∧ includes f "!=" = false ∧
            includes f ">" = false ∧ includes f "<" = false) ∧
      (∀ e ∈ (validateQuery q).issues, isFilterSyntaxEntry e = true →
        e = "Some filters have invalid syntax: " ++
          join ((filtersOf q).filter (fun f =>
            !(includes f "==" || includes f "!=" || includes f ">" || includes f "<")))
            ", ") ∧
      (∀ f, (includes f "==" = true ∨ includes f "!=" = true ∨ includes f ">" = true ∨
          includes f "<" = true) →
        f ∉ (filtersOf q).filter (fun f =>
            !(includes f "==" || includes f "!=" || includes f ">" || includes f "<"))) := by
  have hfilter : (filtersOf q).filter (fun f =>
      !(includes f "==" || includes f "!=" || includes f ">" || includes f "<")) =
      invalidFiltersOf (filtersOf q) := (invalidFiltersOf_eq (filtersOf q)).symm
  refine ⟨⟨?_, ?_⟩, ?_, ?_⟩
  · rintro ⟨e, he, hsyn⟩
    obtain ⟨f, hf⟩ := List.exists_mem_of_ne_nil _ (syntaxEntry_of_mem q e he hsyn).1
    obtain ⟨hf1, hf2⟩ := (mem_invalidFiltersOf _ f).mp hf
    refine ⟨f, hf1, ?_⟩
    unfold hasOperatorToken at hf2
    simpa [Bool.or_eq_false_iff, and_assoc] using hf2
  · rintro ⟨f, hf1, h1, h2, h3, h4⟩
    have hmem : f ∈ invalidFiltersOf (filtersOf q) :=
      (mem_invalidFiltersOf _ f).mpr ⟨hf1, by simp [hasOperatorToken, h1, h2, h3, h4]⟩
    exact ⟨_, syntaxEntry_mem q (List.ne_nil_of_mem hmem), isFilterSyntaxEntry_filterEntry _⟩
  · intro e he hsyn
    rw [hfilter]
    exact (syntaxEntry_of_mem q e he hsyn).2
  · intro f hf hmem
    rw [hfilter] at hmem
    have h2 := ((mem_invalidFiltersOf _ f).mp hmem).2
    unfold hasOperatorToken at h2
    rcases hf with h | h | h | h <;> simp [h] at h2

theorem C11_filter_syntax_check_witness :
    (validateQuery malformedFilterQuery).issues =
        ["Some filters have invalid syntax: cheap products"] ∧
      "colour == 'red'" ∉ (filtersOf malformedFilterQuery).filter (fun f =>
        !(includes f "==" || includes f "!=" || includes f ">" || includes f "<")) :=
  ⟨by decide, (C11_filter_syntax_check malformedFilterQuery).2.2 "colour == 'red'"
    (Or.inl (by decide))⟩

/-- C12. `isValid` is true iff `issues` is empty, and `issues` is at most one
invalid-fields entry followed by at most one filter-syntax entry. -/
theorem C12_valid_iff_no_issue (q : QueryAnalysis) :
    ((validateQuery q).isValid = true ↔ (validateQuery q).issues = []) ∧
      ∃ fieldPart syntaxPart : List String,
        (validateQuery q).issues = fieldPart ++ syntaxPart ∧
        fieldPart.length ≤ 1 ∧ syntaxPart.length ≤ 1 ∧
        (∀ e ∈ fieldPart, isInvalidFieldsEntry e = true ∧ isFilterSyntaxEntry e = false) ∧
        (∀ e ∈ syntaxPart, isFilterSyntaxEntry e = true ∧ isInvalidFieldsEntry e = false) := by
  constructor
  · show ((validateQuery q).issues.length == 0) = true ↔ _
    cases (validateQuery q).issues <;> simp
  · refine ⟨_, _, validateQuery_issues q, ?_, ?_, ?_, ?_⟩
    · split_ifs <;> simp
    · split_ifs <;> simp
    · intro e he
      split_ifs at he
      · cases he
      · rw [List.mem_singleton.mp he]
        exact ⟨isInvalidFieldsEntry_fieldEntry _, isFilterSyntaxEntry_fieldEntry _⟩
    · intro e he
      split_ifs at he
      · cases he
      · rw [List.mem_singleton.mp he]
        exact ⟨isFilterSyntaxEntry_filterEntry _, isInvalidFieldsEntry_filterEntry _⟩

theorem C12_valid_iff_no_issue_witness :
    (validateQuery exampleQuery).isValid = true ∧
      (validateQuery bogusFieldQuery).issues ≠ [] :=
  ⟨(C12_valid_iff_no_issue exampleQuery).1.mpr (by decide),
   fun h => absurd ((C12_valid_iff_no_issue bogusFieldQuery).1.mpr h) (by decide)⟩

/-! ## Filters without operator token -/

theorem evalFilter_of_no_token (item : Record) (u : String) (st : ClauseState)
    (hu : hasOperatorToken u = false) : evalFilter item u st = (true, st) := by
  unfold hasOperatorToken at hu
  simp only [Bool.or_eq_false_iff] at hu
  obtain ⟨⟨⟨h1, h2⟩, h3⟩, h4⟩ := hu
  simp [evalFilter, h1, h2, h3, h4]

theorem clauseText_of_token (f : String) (hf : hasOperatorToken f = true) :
    ∃ c, clauseText f = some c := by
  unfold clauseText
  split_ifs with h1 h2 h3 h4
  · exact ⟨_, rfl⟩
  · exact ⟨_, rfl⟩
  · exact ⟨_, rfl⟩
  · exact ⟨_, rfl⟩
  · simp [hasOperatorToken, h1, h2, h3, h4] at hf

theorem everyFilter_insert (item : Record) (u : String) (pre post : List String)
    (st : ClauseState) (hu : hasOperatorToken u = false) :
    everyFilter item (pre ++ u :: post) st = everyFilter item (pre ++ post) st := by
  induction pre generalizing st with
  | nil => simp [everyFilter, evalFilter_of_no_token item u st hu]
  | cons f pre ih =>
    show everyFilter item (f :: (pre ++ u :: post)) st =
      everyFilter item (f :: (pre ++ post)) st
    simp only [everyFilter, ih]

theorem filterRecords_insert (u : String) (pre post : List String) (records : List Record)
    (st : ClauseState) (hu : hasOperatorToken u = false) :
    filterRecords (pre ++ u :: post) records st = filterRecords (pre ++ post) records st := by
  induction records generalizing st with
  | nil => rfl
  | cons r rs ih => simp only [filterRecords, everyFilter_insert r u pre post st hu, ih]

theorem filterRecords_nil (records : List Record) (st : ClauseState) :
    filterRecords [] records st = (records, st) := by
  induction records generalizing st with
  | nil => rfl
  | cons r rs ih => simp [filterRecords, everyFilter, ih]

theorem applyFilters_eq (q : QueryAnalysis) (records : List Record) :
    applyFilters q records = filterRecords (filtersOf q) records ClauseState.init := by
  unfold applyFilters filtersOf
  cases q.filters with
  | none => simp [filterRecords_nil]
  | some fs =>
    cases fs with
    | nil => simp [filterRecords_nil]
    | cons f fs => simp

theorem applyFilters_withFilters_insert (q : QueryAnalysis) (u : String)
    (pre post : List String) (records : List Record) (hq : filtersOf q = pre ++ post)
    (hu : hasOperatorToken u = false) :
    applyFilters (withFilters q (pre ++ u :: post)) records = applyFilters q records := by
  rw [applyFilters_eq, applyFilters_eq, hq]
  exact filterRecords_insert u pre post records _ hu

theorem executeQuery_withFilters_insert (q : QueryAnalysis) (u : String)
    (pre post : List String) (records : List Record) (rand : ℚ)
    (hq : filtersOf q = pre ++ post) (hu : hasOperatorToken u = false) :
    (executeQuery (withFilters q (pre ++ u :: post)) records rand).data =
        (executeQuery q records rand).data ∧
      (executeQuery (withFilters q (pre ++ u :: post)) records rand).sqlQuery =
        (executeQuery q records rand).sqlQuery := by
  have h := applyFilters_withFilters_insert q u pre post records hq hu
  constructor
  · show (match (withFilters q (pre ++ u :: post)).fields with
      | some fields =>
        if fields.length > 0 then
          (applyFilters (withFilters q (pre ++ u :: post)) records).1.map (projectItem fields)
        else (applyFilters (withFilters q (pre ++ u :: post)) records).1
      | none => (applyFilters (withFilters q (pre ++ u :: post)) records).1) = _
    rw [h]
    rfl
  · show buildSql (withFilters q (pre ++ u :: post))
      (applyFilters (withFilters q (pre ++ u :: post)) records).2.whereClauses = _
    rw [h]
    rfl

theorem sqlQuery_single_token_filter (f : String) (hf : hasOperatorToken f = true) :
    (executeQuery (withFilters emptyQuery [f]) [[]] 0).sqlQuery ≠
      (executeQuery emptyQuery [[]] 0).sqlQuery := by
  obtain ⟨c, hc⟩ := clauseText_of_token f hf
  have hstate : (applyFilters (withFilters emptyQuery [f]) [[]]).2.whereClauses = [c] := by
    rw [applyFilters_eq]
    show (filterRecords [f] [[]] ClauseState.init).2.whereClauses = [c]
    simp only [filterRecords, everyFilter, evalFilter_snd, hc]
    split_ifs <;> rfl
  have hnew : (executeQuery (withFilters emptyQuery [f]) [[]] 0).sqlQuery.length =
      29 + c.length := by
    show (buildSql (withFilters emptyQuery [f])
      (applyFilters (withFilters emptyQuery [f]) [[]]).2.whereClauses).length = _
    rw [hstate]
    have hb : buildSql (withFilters emptyQuery [f]) [c] =
        "SELECT * FROM products" ++ (" WHERE " ++ join [c] " AND ") ++ "" ++ "" := rfl
    have hj : (join [c] " AND ").length = c.length := rfl
    have h1 : ("SELECT * FROM products" : String).length = 22 := by decide
    have h2 : (" WHERE " : String).length = 7 := by decide
    have h3 : ("" : String).length = 0 := by decide
    rw [hb]
    simp only [String.length_append, hj, h1, h2, h3]
    omega
  have hold : (executeQuery emptyQuery [[]] 0).sqlQuery = "SELECT * FROM products" := by
    decide
  intro h
  rw [h, hold] at hnew
  have : ("SELECT * FROM products" : String).length = 22 := by decide
  omega

/-- C13. A filter `u` without operator token, inserted anywhere among the filters,
leaves `data` and `sqlQuery` of `executeQuery` unchanged, while `validateQuery` of the
query containing `u` is invalid with a syntax issue listing `u`.  Conversely a filter
with an operator token does change `sqlQuery` of some query, so that the filters
flagged by the syntax check are exactly those without effect on execution. -/
theorem C13_unrecognized_filter :
    (∀ (u : String) (q : QueryAnalysis) (records : List Record) (rand : ℚ)
        (pre post : List String),
        (includes u "==" = false ∧ includes u "!=" = false ∧ includes u ">" = false ∧
          includes u "<" = false) →
        filtersOf q = pre ++ post →
        (executeQuery (withFilters q (pre ++ u :: post)) records rand).data =
            (executeQuery q records rand).data ∧
          (executeQuery (withFilters q (pre ++ u :: post)) records rand).sqlQuery =
            (executeQuery q records rand).sqlQuery ∧
          (validateQuery (withFilters q (pre ++ u :: post))).isValid = false ∧
          u ∈ invalidFiltersOf (pre ++ u :: post) ∧
          "Some filters have invalid syntax: " ++ join (invalidFiltersOf (pre ++ u :: post)) ", "
            ∈ (validateQuery (withFilters q (pre ++ u :: post))).issues) ∧
      (∀ f : String,
        (∃ e ∈ (validateQuery (withFilters emptyQuery [f])).issues,
            isFilterSyntaxEntry e = true) ↔
          ∀ (q : QueryAnalysis) (records : List Record) (rand : ℚ) (pre post : List String),
            filtersOf q = pre ++ post →
            (executeQuery (withFilters q (pre ++ f :: post)) records rand).data =
                (executeQuery q records rand).data ∧
              (executeQuery (withFilters q (pre ++ f :: post)) records rand).sqlQuery =
                (executeQuery q records rand).sqlQuery) := by
  have htok : ∀ u : String, (includes u "==" = false ∧ includes u "!=" = false ∧
      includes u ">" = false ∧ includes u "<" = false) → hasOperatorToken u = false := by
    rintro u ⟨h1, h2, h3, h4⟩
    simp [hasOperatorToken, h1, h2, h3, h4]
  constructor
  · intro u q records rand pre post hu hq
    have hu2 := htok u hu
    obtain ⟨hd, hs⟩ := executeQuery_withFilters_insert q u pre post records rand hq hu2
    have hmem : u ∈ invalidFiltersOf (pre ++ u :: post) :=
      (mem_invalidFiltersOf _ u).mpr ⟨by simp, hu2⟩
    have hne : invalidFiltersOf (filtersOf (withFilters q (pre ++ u :: post))) ≠ [] :=
      List.ne_nil_of_mem hmem
    have hissue := syntaxEntry_mem _ hne
    refine ⟨hd, hs, ?_, hmem, hissue⟩
    show ((validateQuery (withFilters q (pre ++ u :: post))).issues.length == 0) = false
    cases hi : (validateQuery (withFilters q (pre ++ u :: post))).issues with
    | nil => rw [hi] at hissue; cases hissue
    | cons a l => rfl
  · intro f
    constructor
    · rintro ⟨e, he, hsyn⟩ q records rand pre post hq
      obtain ⟨x, hx⟩ := List.exists_mem_of_ne_nil _ (syntaxEntry_of_mem _ e he hsyn).1
      have hx2 := (mem_invalidFiltersOf _ x).mp hx
      have hxf : x = f := by
        have : x ∈ [f] := hx2.1
        simpa using this
      exact executeQuery_withFilters_insert q f pre post records rand hq (hxf ▸ hx2.2)
    · intro h
      by_cases hf : hasOperatorToken f = true
      · exact absurd (h emptyQuery [[]] 0 [] [] rfl).2 (sqlQuery_single_token_filter f hf)
      · have hf2 : hasOperatorToken f = false := by simpa using hf
        have hmem : f ∈ invalidFiltersOf (filtersOf (withFilters emptyQuery [f])) :=
          (mem_invalidFiltersOf _ f).mpr ⟨List.mem_singleton.mpr rfl, hf2⟩
        exact ⟨_, syntaxEntry_mem _ (List.ne_nil_of_mem hmem),
          isFilterSyntaxEntry_filterEntry _⟩

theorem C13_unrecognized_filter_witness :
    (executeQuery (withFilters exampleQuery
        (["price > 500"] ++ "cheap products" :: ["category == 'Software'"]))
        [recordA, recordB] 0).sqlQuery = (executeQuery exampleQuery [recordA, recordB] 0).sqlQuery ∧
      (validateQuery (withFilters exampleQuery
        (["price > 500"] ++ "cheap products" :: ["category == 'Software'"]))).isValid = false :=
  ⟨(C13_unrecognized_filter.1 "cheap products" exampleQuery [recordA, recordB] 0
      ["price > 500"] ["category == 'Software'"] (by decide) (by decide)).2.1,
   (C13_unrecognized_filter.1 "cheap products" exampleQuery [recordA, recordB] 0
      ["price > 500"] ["category == 'Software'"] (by decide) (by decide)).2.2.1⟩

/-! ## Operator detection, sort and limit, determinism -/

/-- C14. Operator detection order of the filter callback: a filter containing `==` is
handled as an equality split on `==`, whatever else it contains; otherwise one
containing `!=` as an inequality split on `!=`; otherwise one containing `>` as a
greater-than comparison split on `>`; otherwise one containing `<` as a less-than
comparison split on `<`. -/
theorem C14_operator_detection_order (item : Record) (filter : String) (st : ClauseState) :
    (includes filter "==" = true →
        evalFilter item filter st =
          (looseEqString
              (getProp item (sidesOf filter "==" (fun s => stripQuotes (trim s))).1)
              (sidesOf filter "==" (fun s => stripQuotes (trim s))).2,
            noteCondition st
              ((sidesOf filter "==" (fun s => stripQuotes (trim s))).1 ++ " = '" ++
                (sidesOf filter "==" (fun s => stripQuotes (trim s))).2 ++ "'"))) ∧
      (includes filter "==" = false → includes filter "!=" = true →
        evalFilter item filter st =
          (!looseEqString
              (getProp item (sidesOf filter "!=" (fun s => stripQuotes (trim s))).1)
              (sidesOf filter "!=" (fun s => stripQuotes (trim s))).2,
            noteCondition st
              ((sidesOf filter "!=" (fun s => stripQuotes (trim s))).1 ++ " != '" ++
                (sidesOf filter "!=" (fun s => stripQuotes (trim s))).2 ++ "'"))) ∧
      (includes filter "==" = false → includes filter "!=" = false →
        includes filter ">" = true →
        evalFilter item filter st =
          (greaterThanNumber (getProp item (sidesOf filter ">" trim).1)
              (stringToNumber (sidesOf filter ">" trim).2),
            noteCondition st
              ((sidesOf filter ">" trim).1 ++ " > " ++ (sidesOf filter ">" trim).2))) ∧
      (includes filter "==" = false → includes filter "!=" = false →
        includes filter ">" = false → includes filter "<" = true →
        evalFilter item filter st =
          (lessThanNumber (getProp item (sidesOf filter "<" trim).1)
              (stringToNumber (sidesOf filter "<" trim).2),
            noteCondition st
              ((sidesOf filter "<" trim).1 ++ " < " ++ (sidesOf filter "<" trim).2))) := by
  refine ⟨?_, ?_, ?_, ?_⟩
  · intro h1
    unfold evalFilter sidesOf
    rw [if_pos h1]
  · intro h1 h2
    unfold evalFilter sidesOf
    rw [if_neg (by simp [h1]), if_pos h2]
  · intro h1 h2 h3
    unfold evalFilter sidesOf
    rw [if_neg (by simp [h1]), if_neg (by simp [h2]), if_pos h3]
  · intro h1 h2 h3 h4
    unfold evalFilter sidesOf
    rw [if_neg (by simp [h1]), if_neg (by simp [h2]), if_neg (by simp [h3]), if_pos h4]

theorem C14_operator_detection_order_witness :
    evalFilter recordA "price >= 500 != x == 600" ClauseState.init =
        (false, ⟨["price >= 500 != x = '600'"], ["price >= 500 != x = '600'"]⟩) ∧
      evalFilter recordA "price >= 500" ClauseState.init =
        (false, ⟨["price > = 500"], ["price > = 500"]⟩) :=
  ⟨((C14_operator_detection_order recordA "price >= 500 != x == 600" ClauseState.init).1
      (by decide)).trans (by decide),
   ((C14_operator_detection_order recordA "price >= 500" ClauseState.init).2.2.1
      (by decide) (by decide) (by decide)).trans (by decide)⟩

/-- C18. Sort and limit are not applied to `data`: two queries that agree on filters
and fields return the same `data` (same records, order and length) and collect the
same fragments, whatever their sort and limit, also when the limit is smaller than the
number of matching records. -/
theorem C18_sort_limit_not_applied (q1 q2 : QueryAnalysis) (records : List Record)
    (rand1 rand2 : ℚ) (hfilters : q1.filters = q2.filters) (hfields : q1.fields = q2.fields) :
    (executeQuery q1 records rand1).data = (executeQuery q2 records rand2).data ∧
      (executeQuery q1 records rand1).stats.recordsReturned =
        (executeQuery q2 records rand2).stats.recordsReturned ∧
      finalClauses q1 records = finalClauses q2 records := by
  have happ : applyFilters q1 records = applyFilters q2 records := by
    unfold applyFilters
    rw [hfilters]
  have hdata : (executeQuery q1 records rand1).data = (executeQuery q2 records rand2).data := by
    rw [executeQuery_data, executeQuery_data, happ]
    unfold fieldsOf
    rw [hfields]
  refine ⟨hdata, ?_, ?_⟩
  · show (executeQuery q1 records rand1).data.length = (executeQuery q2 records rand2).data.length
    rw [hdata]
  · unfold finalClauses
    rw [happ]

theorem C18_sort_limit_not_applied_witness :
    (executeQuery limitOneQuery [recordA, recordB] 0).data = [recordA, recordB] ∧
      (executeQuery limitOneQuery [recordA, recordB] 0).sqlQuery =
        "SELECT * FROM products WHERE price > 10 ORDER BY price ASC LIMIT 1" :=
  ⟨(C18_sort_limit_not_applied limitOneQuery
      { limitOneQuery with sort := none, limit := none } [recordA, recordB] 0 0
      (by decide) (by decide)).1.trans (by decide),
   by decide⟩

/-- C19. Determinism: `data`, `sqlQuery`, `stats.recordsReturned` and
`stats.complexity` do not depend on the random value behind `stats.executionTimeMs`
(and `validateQuery` takes no such value at all); `stats.recordsReturned` is the length
of `data`, and `stats.complexity` is the value `validateQuery` reports. -/
theorem C19_determinism (q : QueryAnalysis) (records : List Record) (rand1 rand2 : ℚ) :
    (executeQuery q records rand1).data = (executeQuery q records rand2).data ∧
      (executeQuery q records rand1).sqlQuery = (executeQuery q records rand2).sqlQuery ∧
      (executeQuery q records rand1).stats.recordsReturned =
        (executeQuery q records rand2).stats.recordsReturned ∧
      (executeQuery q records rand1).stats.complexity =
        (executeQuery q records rand2).stats.complexity ∧
      (executeQuery q records rand1).stats.recordsReturned =
        (executeQuery q records rand1).data.length ∧
      (executeQuery q records rand1).stats.complexity = (validateQuery q).complexity ∧
      (executeQuery q records rand1).stats.executionTimeMs = rand1 * 100 + 50 :=
  ⟨rfl, rfl, rfl, rfl, rfl, rfl, rfl⟩

/-! ## The fragments collected by a scan -/

theorem everyFilter_snd_exact (item : Record) (filters : List String) (st : ClauseState) :
    (everyFilter item filters st).2 =
      ((filters.map clauseText).take (evaluatedCount item filters)).foldl noteClause st := by
  induction filters generalizing st with
  | nil => rfl
  | cons f fs ih =>
    simp only [everyFilter, evaluatedCount, evalFilter_fst, evalFilter_snd]
    by_cases h : filterPredicate item f = true
    · rw [if_pos h, if_pos h, ih]
      rfl
    · rw [if_neg h, if_neg h]
      rfl

theorem foldl_take_max (L : List (Option String)) (j m : Nat) :
    (L.take m).foldl noteClause ((L.take j).foldl noteClause ClauseState.init) =
      (L.take (max j m)).foldl noteClause ClauseState.init := by
  by_cases hmj : m ≤ j
  · rw [Nat.max_eq_left hmj]
    apply foldl_noteClause_of_noted
    intro c hc
    exact noted_foldl_of_mem _ _ c (List.take_subset_take_left L hmj hc)
  · have hjm : j ≤ m := Nat.le_of_not_le hmj
    rw [Nat.max_eq_right hjm]
    have hsplit : L.take m = L.take j ++ (L.take m).drop j := by
      have := List.take_append_drop j (L.take m)
      rw [List.take_take, Nat.min_eq_left hjm] at this
      exact this.symm
    have hfix : (L.take j).foldl noteClause ((L.take j).foldl noteClause ClauseState.init) =
        (L.take j).foldl noteClause ClauseState.init := by
      apply foldl_noteClause_of_noted
      intro c hc
      exact noted_foldl_of_mem _ _ c hc
    conv_lhs => rw [hsplit, List.foldl_append, hfix]
    conv_rhs => rw [hsplit, List.foldl_append]

theorem filterRecords_snd_exact (filters : List String) (records : List Record) (j : Nat) :
    (filterRecords filters records
        (((filters.map clauseText).take j).foldl noteClause ClauseState.init)).2 =
      ((filters.map clauseText).take
          (records.foldl (fun k item => max k (evaluatedCount item filters)) j)).foldl
        noteClause ClauseState.init := by
  induction records generalizing j with
  | nil => rfl
  | cons r rs ih =>
    simp only [filterRecords, List.foldl_cons]
    rw [everyFilter_snd_exact, foldl_take_max, ih]

theorem whereClauses_foldl_noteClause (P : List (Option String)) (st : ClauseState)
    (hsync : st.uniqueConditions = st.whereClauses) :
    (P.foldl noteClause st).whereClauses =
      (P.filterMap id).foldl (fun acc x => if x ∈ acc then acc else acc ++ [x])
        st.whereClauses := by
  induction P generalizing st with
  | nil => rfl
  | cons o P ih =>
    cases o with
    | none => simpa [noteClause] using ih st hsync
    | some c =>
      simp only [List.foldl_cons, List.filterMap_cons, id]
      by_cases hc : c ∈ st.uniqueConditions
      · have hst : noteClause st (some c) = st := by simp [noteClause, noteCondition, hc]
        rw [hst, ih st hsync, if_pos (hsync ▸ hc)]
      · have hst : noteClause st (some c) =
            ⟨st.whereClauses ++ [c], st.uniqueConditions ++ [c]⟩ := by
          simp [noteClause, noteCondition, hc]
        rw [hst, ih _ (by simp [hsync]), if_neg (hsync ▸ hc)]

theorem finalClauses_eq (q : QueryAnalysis) (records : List Record) :
    finalClauses q records =
      dedupKeepFirst
        (((filtersOf q).take (scanDepth (filtersOf q) records)).filterMap clauseText) := by
  unfold finalClauses dedupKeepFirst scanDepth
  rw [applyFilters_eq]
  have h := filterRecords_snd_exact (filtersOf q) records 0
  simp only [List.take_zero, List.foldl_nil] at h
  rw [h, whereClauses_foldl_noteClause _ _ rfl, ← List.map_take, List.filterMap_map]
  rfl

theorem scanDepth_of_all_fail (f : String) (rest : List String) (records : List Record)
    (hne : records ≠ []) (hfail : ∀ item ∈ records, filterPredicate item f = false) :
    scanDepth (f :: rest) records = 1 := by
  have hcount : ∀ item ∈ records, evaluatedCount item (f :: rest) = 1 := by
    intro item hitem
    simp [evaluatedCount, hfail item hitem]
  have hfold : ∀ (rs : List Record) (k : Nat),
      (∀ item ∈ rs, evaluatedCount item (f :: rest) = 1) →
      rs.foldl (fun k item => max k (evaluatedCount item (f :: rest))) k =
        if rs = [] then k else max k 1 := by
    intro rs
    induction rs with
    | nil => intro k _; rfl
    | cons r rs ih =>
      intro k hall
      rw [List.foldl_cons, ih _ (fun item hi => hall item (List.mem_cons_of_mem _ hi)),
        hall r (List.mem_cons_self _ _), if_neg (List.cons_ne_nil r rs)]
      split_ifs <;> simp
  unfold scanDepth
  rw [hfold records 0 hcount, if_neg hne]
  rfl

theorem buildSql_eq_canonicalQuery (q : QueryAnalysis) (whereClauses : List String) :
    buildSql q whereClauses =
      canonicalQuery (fieldsOf q) whereClauses q.sort
        (if q.limit = some 0 then none else q.limit) := by
  have hsel : (match q.fields with
      | some fields => if fields.length > 0 then join fields ", " else "*"
      | none => "*") = (if fieldsOf q = [] then "*" else join (fieldsOf q) ", ") := by
    unfold fieldsOf
    cases q.fields with
    | none => rfl
    | some fs => cases fs <;> simp
  have hlim : (match q.limit with
      | some n => if (n != 0) = true then " LIMIT " ++ numberToString n else ""
      | none => "") =
      (match (if q.limit = some 0 then none else q.limit) with
      | some n => " LIMIT " ++ numberToString n
      | none => "") := by
    cases q.limit with
    | none => rfl
    | some n =>
      by_cases hn : n = 0
      · subst hn; rfl
      · simp [hn]
  have hwhere : (if whereClauses.length > 0
        then " WHERE " ++ join whereClauses " AND " else "") =
      (if whereClauses = [] then "" else " WHERE " ++ join whereClauses " AND ") := by
    cases whereClauses <;> simp
  unfold buildSql canonicalQuery
  simp only [hsel, hlim, hwhere]

/-- C20. The fragments of `sqlQuery` are the clause texts of the first `k` filters,
deduplicated keeping first occurrences, where `k` is the largest number of filters
evaluated on a record (up to and including its first failing filter) and 0 for an empty
record set.  Hence an empty record set gives no `WHERE` segment, and a record set whose
records all fail the first filter gives that filter's fragment alone. -/
theorem C20_fragments_follow_scan (q : QueryAnalysis) (records : List Record) (rand : ℚ) :
    (executeQuery q records rand).sqlQuery =
        canonicalQuery (fieldsOf q) (finalClauses q records) q.sort
          (if q.limit = some 0 then none else q.limit) ∧
      finalClauses q records =
        dedupKeepFirst
          (((filtersOf q).take (scanDepth (filtersOf q) records)).filterMap clauseText) ∧
      (records = [] → scanDepth (filtersOf q) records = 0 ∧ finalClauses q records = []) ∧
      (∀ f rest, filtersOf q = f :: rest → records ≠ [] →
        (∀ item ∈ records, filterPredicate item f = false) →
        scanDepth (filtersOf q) records = 1 ∧
          ∃ c, clauseText f = some c ∧ finalClauses q records = [c]) := by
  refine ⟨buildSql_eq_canonicalQuery q _, finalClauses_eq q records, ?_, ?_⟩
  · intro hrec
    subst hrec
    refine ⟨rfl, ?_⟩
    rw [finalClauses_eq]
    rfl
  · intro f rest hq hne hfail
    have hdepth : scanDepth (filtersOf q) records = 1 := by
      rw [hq]; exact scanDepth_of_all_fail f rest records hne hfail
    refine ⟨hdepth, ?_⟩
    obtain ⟨item, hitem⟩ := List.exists_mem_of_ne_nil _ hne
    have htok : hasOperatorToken f = true := by
      by_contra hno
      have hno2 : hasOperatorToken f = false := by simpa using hno
      have htrue : filterPredicate item f = true := by
        rw [← evalFilter_fst item f ClauseState.init,
          evalFilter_of_no_token item f _ hno2]
      rw [hfail item hitem] at htrue
      cases htrue
    obtain ⟨c, hc⟩ := clauseText_of_token f htok
    refine ⟨c, hc, ?_⟩
    rw [finalClauses_eq, hdepth, hq]
    simp [dedupKeepFirst, hc]

theorem C20_fragments_follow_scan_witness :
    (finalClauses twoFilterQuery [] = [] ∧
        (executeQuery twoFilterQuery [] 0).sqlQuery = "SELECT * FROM products") ∧
      (finalClauses twoFilterQuery [recordB] = ["price > 500"] ∧
        (executeQuery twoFilterQuery [recordB] 0).sqlQuery =
          "SELECT * FROM products WHERE price > 500") :=
  ⟨⟨((C20_fragments_follow_scan twoFilterQuery [] 0).2.2.1 rfl).2, by decide⟩,
   ⟨by
      obtain ⟨c, hc, hfin⟩ := ((C20_fragments_follow_scan twoFilterQuery [recordB] 0).2.2.2
        "price > 500" ["category == 'Software'"] (by decide) (by decide) (by decide)).2
      rw [hfin]
      have : clauseText "price > 500" = some "price > 500" := by decide
      rw [this] at hc
      injection hc with hc
      rw [hc],
    by decide⟩⟩

/-! ## Character-level facts about `trim`, `includes` and `split` -/

theorem trimStartChars_append_of_ws (ws x : List Char)
    (hws : ∀ c ∈ ws, isJSWhitespace c = true) :
    trimStartChars (ws ++ x) = trimStartChars x := by
  induction ws with
  | nil => rfl
  | cons w ws ih =>
    have hw : isJSWhitespace w = true := hws w (List.mem_cons_self _ _)
    simp only [List.cons_append, trimStartChars, hw, if_true]
    exact ih (fun c hc => hws c (List.mem_cons_of_mem _ hc))

theorem trimStartChars_of_head (x : List Char)
    (hx : ∀ c, x.head? = some c → isJSWhitespace c = false) : trimStartChars x = x := by
  cases x with
  | nil => rfl
  | cons c cs => simp [trimStartChars, hx c rfl]

theorem trimChars_pad (wsA x wsB : List Char)
    (hA : ∀ c ∈ wsA, isJSWhitespace c = true) (hB : ∀ c ∈ wsB, isJSWhitespace c = true)
    (hhead : ∀ c, x.head? = some c → isJSWhitespace c = false)
    (hlast : ∀ c, x.getLast? = some c → isJSWhitespace c = false) :
    trimChars (wsA ++ x ++ wsB) = x := by
  unfold trimChars
  rw [List.append_assoc, trimStartChars_append_of_ws wsA _ hA]
  cases x with
  | nil =>
    have h0 : trimStartChars ([] ++ wsB) = [] := by
      have := trimStartChars_append_of_ws wsB [] hB
      simpa [trimStartChars] using this
    rw [h0]
    rfl
  | cons c cs =>
    have h1 : trimStartChars (c :: cs ++ wsB) = c :: cs ++ wsB :=
      trimStartChars_of_head _ (fun d hd => hhead d (by simpa using hd))
    rw [h1, List.reverse_append,
      trimStartChars_append_of_ws wsB.reverse _ (fun d hd => hB d (List.mem_reverse.mp hd)),
      trimStartChars_of_head _ (fun d hd => hlast d (by rw [List.head?_reverse] at hd; exact hd)),
      List.reverse_reverse]

theorem includesChars_of_startsWith (pat cs : List Char)
    (h : startsWithChars pat cs = true) : includesChars pat cs = true := by
  cases cs with
  | nil => exact h
  | cons c cs => simp [includesChars, h]

theorem includesChars_append_left (pat a b : List Char) :
    includesChars pat (a ++ (pat ++ b)) = true := by
  induction a with
  | nil => exact includesChars_of_startsWith _ _ (startsWithChars_append pat b)
  | cons c a ih => simp [includesChars, ih]

theorem includesChars_single (x : Char) (cs : List Char) :
    includesChars [x] cs = decide (x ∈ cs) := by
  induction cs with
  | nil => rfl
  | cons c cs ih =>
    simp only [includesChars, startsWithChars, ih, Bool.and_true, List.mem_cons]
    by_cases hxc : x = c <;> simp [hxc]

theorem startsWithChars_single_append (y : Char) (a t : List Char)
    (ht : t.head? ≠ some y) :
    startsWithChars [y] (a ++ t) = startsWithChars [y] a := by
  cases a with
  | nil =>
    cases t with
    | nil => rfl
    | cons d t =>
      have : ¬ y = d := fun h => ht (by simp [h])
      simp [startsWithChars, this]
  | cons c a => rfl

/-- Occurrences of a two-character pattern in a concatenation: inside the left part,
inside the right part, or across the seam. -/
theorem includesChars_pair_append (x y : Char) (a t : List Char) :
    includesChars [x, y] (a ++ t) =
      (includesChars [x, y] a || includesChars [x, y] t ||
        (decide (a.getLast? = some x) && decide (t.head? = some y))) := by
  induction a with
  | nil =>
    cases t <;> simp [includesChars, startsWithChars]
  | cons c a ih =>
    cases a with
    | nil =>
      cases t with
      | nil => simp [includesChars, startsWithChars]
      | cons d t =>
        have hA : (x == c && (y == d && true)) = (decide (c = x) && decide (d = y)) := by
          by_cases h1 : x = c
          · by_cases h2 : y = d
            · simp [h1, h2]
            · have h3 : ¬ d = y := fun e => h2 e.symm
              simp [h2, h3]
          · have h3 : ¬ c = x := fun e => h1 e.symm
            simp [h1, h3]
        simp only [List.cons_append, List.nil_append, includesChars, startsWithChars,
          Bool.and_false, Bool.false_or, Bool.or_false,
          List.getLast?_singleton, List.head?_cons, Option.some.injEq]
        rw [hA]
        cases (decide (c = x) && decide (d = y)) <;> simp
    | cons d a =>
      have ih' := ih
      simp only [List.cons_append] at ih' ⊢
      rw [includesChars, ih']
      simp only [includesChars, startsWithChars, List.getLast?_cons_cons]
      cases (x == c && (y == d && true)) <;> simp [Bool.or_assoc]

theorem includesChars_pair_of_not_mem (x y : Char) (cs : List Char) (h : y ∉ cs) :
    includesChars [x, y] cs = false := by
  induction cs with
  | nil => rfl
  | cons c cs ih =>
    have hcs : y ∉ cs := fun hc => h (List.mem_cons_of_mem _ hc)
    rw [includesChars, ih hcs]
    cases cs with
    | nil => simp [startsWithChars]
    | cons d cs =>
      have : ¬ y = d := fun e => hcs (e ▸ List.mem_cons_self _ _)
      simp [startsWithChars, this]

theorem splitGo_skip (sep s b acc : List Char) :
    splitGo sep (s ++ b) s.length acc = splitGo sep b 0 acc := by
  induction s with
  | nil => rfl
  | cons c s ih => simpa [splitGo] using ih

theorem splitGo_of_not_includes (sep b acc : List Char)
    (h : includesChars sep b = false) : splitGo sep b 0 acc = [acc.reverse ++ b] := by
  induction b generalizing acc with
  | nil => simp [splitGo]
  | cons c b ih =>
    simp only [includesChars, Bool.or_eq_false_iff] at h
    simp only [splitGo, h.1, Bool.false_eq_true, if_false]
    rw [ih _ h.2]
    simp

theorem splitGo_single (x : Char) (a b acc : List Char) (ha : x ∉ a) :
    splitGo [x] (a ++ x :: b) 0 acc = (acc.reverse ++ a) :: splitGo [x] b 0 [] := by
  induction a generalizing acc with
  | nil => simp [splitGo, startsWithChars]
  | cons c a ih =>
    have hc : ¬ x = c := fun e => ha (e ▸ List.mem_cons_self _ _)
    have ha' : x ∉ a := fun e => ha (List.mem_cons_of_mem _ e)
    have step : splitGo [x] (c :: (a ++ x :: b)) 0 acc =
        splitGo [x] (a ++ x :: b) 0 (c :: acc) := by
      rw [splitGo]
      simp [startsWithChars, hc]
    rw [List.cons_append, step, ih _ ha']
    simp

theorem splitGo_pair (x y : Char) (a b acc : List Char)
    (ha : includesChars [x, y] (a ++ [x]) = false) :
    splitGo [x, y] (a ++ x :: y :: b) 0 acc =
      (acc.reverse ++ a) :: splitGo [x, y] b 0 [] := by
  induction a generalizing acc with
  | nil => simp [splitGo, startsWithChars]
  | cons c a ih =>
    simp only [List.cons_append, includesChars, Bool.or_eq_false_iff] at ha
    have hstart : startsWithChars [x, y] (c :: (a ++ x :: y :: b)) = false := by
      have h1 := ha.1
      simp only [startsWithChars] at h1 ⊢
      have h2 : startsWithChars [y] (a ++ x :: y :: b) = startsWithChars [y] (a ++ [x]) := by
        cases a <;> rfl
      rw [h2]
      exact h1
    have step : splitGo [x, y] (c :: (a ++ x :: y :: b)) 0 acc =
        splitGo [x, y] (a ++ x :: y :: b) 0 (c :: acc) := by
      rw [splitGo]
      simp [hstart]
    rw [List.cons_append, step, ih _ ha.2]
    simp
theorem includesChars_pair_append_ws (x y : Char) (a ws : List Char)
    (hws : ∀ c ∈ ws, c ≠ y) :
    includesChars [x, y] (a ++ ws) = includesChars [x, y] a := by
  rw [includesChars_pair_append, includesChars_pair_of_not_mem x y ws (fun h => hws y h rfl)]
  have hhead : ¬ ws.head? = some y := fun h =>
    hws y (List.mem_of_mem_head? (by simp [h])) rfl
  simp [hhead]

theorem includesChars_pair_ws_append (x y : Char) (ws t : List Char)
    (hws : ∀ c ∈ ws, c ≠ x) :
    includesChars [x, y] (ws ++ t) = includesChars [x, y] t := by
  induction ws with
  | nil => rfl
  | cons w ws ih =>
    have hw : ¬ x = w := fun e => hws w (List.mem_cons_self _ _) e.symm
    rw [List.cons_append, includesChars, ih (fun c hc => hws c (List.mem_cons_of_mem _ hc))]
    simp [startsWithChars, hw]

theorem includesChars_pair_sep (x y c : Char) (a t : List Char) (hx : c ≠ x) (hy : c ≠ y) :
    includesChars [x, y] (a ++ c :: t) =
      (includesChars [x, y] a || includesChars [x, y] t) := by
  have h1 : a ++ c :: t = (a ++ [c]) ++ t := by simp
  rw [h1, includesChars_pair_append, includesChars_pair_append_ws x y a [c]
    (fun d hd => by rw [List.mem_singleton.mp hd]; exact hy)]
  simp [hx]

theorem not_ws_of_eq (c : Char) (hc : isJSWhitespace c = true) :
    c ≠ '=' ∧ c ≠ '!' ∧ c ≠ '>' ∧ c ≠ '<' ∧ c ≠ '\'' := by
  refine ⟨?_, ?_, ?_, ?_, ?_⟩ <;> (intro e; subst e; revert hc; decide)

/-! ## A filter written as left side, operator, right side -/

theorem includes_mid (L sep R : String) : includes (L ++ sep ++ R) sep = true := by
  unfold includes
  rw [String.data_append, String.data_append, List.append_assoc]
  exact includesChars_append_left _ _ _

theorem split_pair (L sep R : String) (x y : Char) (hsep : sep.data = [x, y])
    (hL : includesChars [x, y] (L.data ++ [x]) = false)
    (hR : includesChars [x, y] R.data = false) :
    split (L ++ sep ++ R) sep = [L, R] := by
  unfold split
  rw [String.data_append, String.data_append, hsep, List.append_assoc]
  show List.map String.mk (splitGo [x, y] (L.data ++ x :: y :: R.data) 0 []) = _
  rw [splitGo_pair x y _ _ _ hL, splitGo_of_not_includes _ _ _ hR]
  rfl

theorem split_single (L sep R : String) (x : Char) (hsep : sep.data = [x])
    (hL : x ∉ L.data) (hR : x ∉ R.data) :
    split (L ++ sep ++ R) sep = [L, R] := by
  unfold split
  rw [String.data_append, String.data_append, hsep, List.append_assoc]
  show List.map String.mk (splitGo [x] (L.data ++ x :: R.data) 0 []) = _
  have hR2 : includesChars [x] R.data = false := by
    rw [includesChars_single]; simpa using hR
  rw [splitGo_single x _ _ _ hL, splitGo_of_not_includes _ _ _ hR2]
  rfl

theorem includes_single_iff (s : String) (x : Char) (sep : String) (hsep : sep.data = [x]) :
    includes s sep = decide (x ∈ s.data) := by
  unfold includes
  rw [hsep, includesChars_single]

/-- Left side of an equality filter: no `==` inside and no `=` at its end, so that the
operator is the first `==` of the filter. -/
theorem left_ready_eq (L : String) (h1 : includes L "==" = false)
    (h2 : L.data.getLast? ≠ some '=') :
    includesChars ['=', '='] (L.data ++ ['=']) = false := by
  rw [includesChars_pair_append]
  have h1' : includesChars ['=', '='] L.data = false := h1
  simp [h1', h2, includesChars, startsWithChars]

theorem left_ready_ne (L : String) (h1 : includes L "!=" = false) :
    includesChars ['!', '='] (L.data ++ ['!']) = false := by
  rw [includesChars_pair_append]
  have h1' : includesChars ['!', '='] L.data = false := h1
  simp [h1', includesChars, startsWithChars]

theorem sidesOf_eq (L R : String) (clean : String → String)
    (h1 : includes L "==" = false) (h2 : L.data.getLast? ≠ some '=')
    (h3 : includes R "==" = false) :
    sidesOf (L ++ "==" ++ R) "==" clean = (clean L, clean R) := by
  unfold sidesOf
  rw [split_pair L "==" R '=' '=' rfl (left_ready_eq L h1 h2) h3]
  rfl

theorem sidesOf_ne (L R : String) (clean : String → String)
    (h1 : includes L "!=" = false) (h3 : includes R "!=" = false) :
    sidesOf (L ++ "!=" ++ R) "!=" clean = (clean L, clean R) := by
  unfold sidesOf
  rw [split_pair L "!=" R '!' '=' rfl (left_ready_ne L h1) h3]
  rfl

theorem sidesOf_gt (L R : String) (clean : String → String)
    (h1 : includes L ">" = false) (h3 : includes R ">" = false) :
    sidesOf (L ++ ">" ++ R) ">" clean = (clean L, clean R) := by
  unfold sidesOf
  rw [includes_single_iff L '>' ">" rfl] at h1
  rw [includes_single_iff R '>' ">" rfl] at h3
  rw [split_single L ">" R '>' rfl (by simpa using h1) (by simpa using h3)]
  rfl

theorem sidesOf_lt (L R : String) (clean : String → String)
    (h1 : includes L "<" = false) (h3 : includes R "<" = false) :
    sidesOf (L ++ "<" ++ R) "<" clean = (clean L, clean R) := by
  unfold sidesOf
  rw [includes_single_iff L '<' "<" rfl] at h1
  rw [includes_single_iff R '<' "<" rfl] at h3
  rw [split_single L "<" R '<' rfl (by simpa using h1) (by simpa using h3)]
  rfl

theorem filterPredicate_eq_sides (item : Record) (filter : String) :
    filterPredicate item filter =
      if includes filter "==" then
        looseEqString
          (getProp item (sidesOf filter "==" (fun s => stripQuotes (trim s))).1)
          (sidesOf filter "==" (fun s => stripQuotes (trim s))).2
      else if includes filter "!=" then
        !looseEqString
          (getProp item (sidesOf filter "!=" (fun s => stripQuotes (trim s))).1)
          (sidesOf filter "!=" (fun s => stripQuotes (trim s))).2
      else if includes filter ">" then
        greaterThanNumber (getProp item (sidesOf filter ">" trim).1)
          (stringToNumber (sidesOf filter ">" trim).2)
      else if includes filter "<" then
        lessThanNumber (getProp item (sidesOf filter "<" trim).1)
          (stringToNumber (sidesOf filter "<" trim).2)
      else true := rfl

theorem clauseText_eq_sides (filter : String) :
    clauseText filter =
      if includes filter "==" then
        some ((sidesOf filter "==" (fun s => stripQuotes (trim s))).1 ++ " = '" ++
          (sidesOf filter "==" (fun s => stripQuotes (trim s))).2 ++ "'")
      else if includes filter "!=" then
        some ((sidesOf filter "!=" (fun s => stripQuotes (trim s))).1 ++ " != '" ++
          (sidesOf filter "!=" (fun s => stripQuotes (trim s))).2 ++ "'")
      else if includes filter ">" then
        some ((sidesOf filter ">" trim).1 ++ " > " ++ (sidesOf filter ">" trim).2)
      else if includes filter "<" then
        some ((sidesOf filter "<" trim).1 ++ " < " ++ (sidesOf filter "<" trim).2)
      else none := rfl

/-! ## Claims about the predicates of equality and numeric filters -/

theorem stripQuotes_of_not_mem (s : String) (h : '\'' ∉ s.data) : stripQuotes s = s := by
  unfold stripQuotes
  have : s.data.filter (fun c => c != '\'') = s.data := by
    rw [List.filter_eq_self]
    intro c hc
    have : c ≠ '\'' := fun e => h (e ▸ hc)
    simpa using this
  rw [this]

theorem trim_pad (wsA x wsB : String)
    (hA : ∀ c ∈ wsA.data, isJSWhitespace c = true)
    (hB : ∀ c ∈ wsB.data, isJSWhitespace c = true)
    (hhead : ∀ c, x.data.head? = some c → isJSWhitespace c = false)
    (hlast : ∀ c, x.data.getLast? = some c → isJSWhitespace c = false) :
    trim (wsA ++ x ++ wsB) = x := by
  unfold trim
  rw [String.data_append, String.data_append, trimChars_pad _ _ _ hA hB hhead hlast]

theorem stripQuotes_trim_quoted (wsA v wsB : String)
    (hA : ∀ c ∈ wsA.data, isJSWhitespace c = true)
    (hB : ∀ c ∈ wsB.data, isJSWhitespace c = true)
    (hv : '\'' ∉ v.data) :
    stripQuotes (trim (wsA ++ ("'" ++ v ++ "'") ++ wsB)) = v := by
  rw [trim_pad wsA ("'" ++ v ++ "'") wsB hA hB]
  · unfold stripQuotes
    rw [String.data_append, String.data_append]
    have h1 : ("'" : String).data = ['\''] := rfl
    rw [h1]
    have : (['\''] ++ v.data ++ ['\'']).filter (fun c => c != '\'') = v.data := by
      rw [List.filter_append, List.filter_append]
      have hv2 : v.data.filter (fun c => c != '\'') = v.data := by
        rw [List.filter_eq_self]
        intro c hc
        have : c ≠ '\'' := fun e => hv (e ▸ hc)
        simpa using this
      rw [hv2]
      simp
    rw [this]
  · intro c hc
    rw [String.data_append, String.data_append] at hc
    have : c = '\'' := by
      have h1 : ("'" : String).data = ['\''] := rfl
      rw [h1] at hc
      simpa using hc.symm
    subst this
    decide
  · intro c hc
    rw [String.data_append] at hc
    have : c = '\'' := by
      have h1 : ("'" : String).data = ['\''] := rfl
      rw [h1, List.getLast?_concat] at hc
      exact (Option.some.inj hc).symm
    subst this
    decide

/-- C16 as stated fails for double quotes: only apostrophes are stripped, so on the first
example record `region == "Europe"` is false although the region loosely equals the
value with every quote character, single or double, stripped.  It also fails for a value
text containing `==`: the filter is split at each `==` and only the piece after the
first one is compared. -/
theorem C16_double_quote_counterexample :
    (filterPredicate recordA "region == \"Europe\"" = false ∧
        looseEqString (getProp recordA "region")
          (stripAllQuotes (trim " \"Europe\"")) = true ∧
        filterPredicate recordA "region == 'Europe'" = true) ∧
      (filterPredicate recordOddName "product == x==y" = false ∧
        looseEqString (getProp recordOddName "product")
          (stripAllQuotes (trim " x==y")) = true) := by
  decide

theorem representable_int (n : ℤ) (h : |n| < 10 ^ 15) :
    JSNumber.Representable (.fin (n : ℚ)) :=
  ⟨n, 0, h, by norm_num, by norm_num, by simp⟩

/-- C16, amended. Equality filters with the value optionally wrapped in apostrophes,
for a field name the record does not merely inherit and representable numbers: a
filter `L == R` whose operator is its first `==` holds on a record iff the field named
by `L` (trimmed, apostrophes stripped) loosely equals `R` trimmed with every apostrophe
stripped; a number-valued field equals a numeric string denoting the same number; a
filter `L != R` without `==` whose operator is its only `!=` holds iff that loose
equality does not, hence, when `L == R` is read as above, iff `L == R` does not. -/
theorem C16_equality_filters (item : Record) (L R : String) :
    (includes L "==" = false → L.data.getLast? ≠ some '=' → includes R "==" = false →
        EqualityWithinModel item (stripQuotes (trim L)) (stripQuotes (trim R)) →
        filterPredicate item (L ++ "==" ++ R) =
          looseEqString (getProp item (stripQuotes (trim L))) (stripQuotes (trim R))) ∧
      (includes (L ++ "!=" ++ R) "==" = false → includes L "!=" = false →
        includes R "!=" = false →
        EqualityWithinModel item (stripQuotes (trim L)) (stripQuotes (trim R)) →
        filterPredicate item (L ++ "!=" ++ R) =
          !looseEqString (getProp item (stripQuotes (trim L))) (stripQuotes (trim R))) ∧
      (includes L "==" = false → L.data.getLast? ≠ some '=' → includes R "==" = false →
        includes (L ++ "!=" ++ R) "==" = false → includes L "!=" = false →
        includes R "!=" = false →
        EqualityWithinModel item (stripQuotes (trim L)) (stripQuotes (trim R)) →
        filterPredicate item (L ++ "!=" ++ R) = !filterPredicate item (L ++ "==" ++ R)) ∧
      (∀ wsA wsB f : String,
        (∀ c ∈ wsA.data, isJSWhitespace c = true) →
        (∀ c ∈ wsB.data, isJSWhitespace c = true) →
        '\'' ∉ f.data →
        stripQuotes (trim (wsA ++ ("'" ++ f ++ "'") ++ wsB)) = f ∧
          ((∀ c, f.data.head? = some c → isJSWhitespace c = false) →
            (∀ c, f.data.getLast? = some c → isJSWhitespace c = false) →
            stripQuotes (trim (wsA ++ f ++ wsB)) = f)) ∧
      (∀ (x : ℚ) (s : String), stringToNumber s = .fin x →
        looseEqString (.number (.fin x)) s = true) := by
  have hA : includes L "==" = false → L.data.getLast? ≠ some '=' → includes R "==" = false →
      filterPredicate item (L ++ "==" ++ R) =
        looseEqString (getProp item (stripQuotes (trim L))) (stripQuotes (trim R)) := by
    intro h1 h2 h3
    rw [filterPredicate_eq_sides, if_pos (includes_mid L "==" R), sidesOf_eq L R _ h1 h2 h3]
  have hB : includes (L ++ "!=" ++ R) "==" = false → includes L "!=" = false →
      includes R "!=" = false →
      filterPredicate item (L ++ "!=" ++ R) =
        !looseEqString (getProp item (stripQuotes (trim L))) (stripQuotes (trim R)) := by
    intro h0 h1 h3
    rw [filterPredicate_eq_sides, if_neg (by simp [h0]), if_pos (includes_mid L "!=" R),
      sidesOf_ne L R _ h1 h3]
  refine ⟨fun h1 h2 h3 _ => hA h1 h2 h3, fun h0 h1 h3 _ => hB h0 h1 h3, ?_, ?_, ?_⟩
  · intro h1 h2 h3 h4 h5 h6 _
    rw [hA h1 h2 h3, hB h4 h5 h6]
  · intro wsA wsB f hwA hwB hq
    refine ⟨stripQuotes_trim_quoted wsA f wsB hwA hwB hq, fun hh hl => ?_⟩
    rw [trim_pad wsA f wsB hwA hwB hh hl, stripQuotes_of_not_mem f hq]
  · intro x s hs
    simp [looseEqString, hs, JSNumber.equal]

theorem equalityWithinModel_price_600 :
    EqualityWithinModel recordA (stripQuotes (trim "price ")) (stripQuotes (trim " 600")) ∧
      EqualityWithinModel recordA (stripQuotes (trim "price "))
        (stripQuotes (trim " '600'")) := by
  have hf : toNumber (getProp recordA (stripQuotes (trim "price "))) = .fin ((600 : ℤ) : ℚ) := by
    decide
  have hv1 : stringToNumber (stripQuotes (trim " 600")) = .fin ((600 : ℤ) : ℚ) := by decide
  have hv2 : stringToNumber (stripQuotes (trim " '600'")) = .fin ((600 : ℤ) : ℚ) := by decide
  have h600 := representable_int 600 (by norm_num)
  exact ⟨⟨Or.inl (by decide), hf ▸ h600, hv1 ▸ h600⟩,
    ⟨Or.inl (by decide), hf ▸ h600, hv2 ▸ h600⟩⟩

theorem C16_equality_filters_witness :
    (filterPredicate recordA ("price " ++ "==" ++ " 600") = true ∧
        filterPredicate recordA ("price " ++ "==" ++ " '600'") = true) ∧
      filterPredicate recordA ("price " ++ "!=" ++ " '600'") = false ∧
      filterPredicate recordA ("price " ++ "!=" ++ " '600'") =
        !filterPredicate recordA ("price " ++ "==" ++ " '600'") ∧
      stripQuotes (trim ("  " ++ ("'" ++ "North America" ++ "'") ++ " ")) = "North America" ∧
      looseEqString (.number (.fin 600)) " 600" = true :=
  ⟨⟨((C16_equality_filters recordA "price " " 600").1 (by decide) (by decide)
        (by decide) equalityWithinModel_price_600.1).trans (by decide),
      ((C16_equality_filters recordA "price " " '600'").1 (by decide) (by decide)
        (by decide) equalityWithinModel_price_600.2).trans (by decide)⟩,
    ((C16_equality_filters recordA "price " " '600'").2.1 (by decide) (by decide)
      (by decide) equalityWithinModel_price_600.2).trans (by decide),
    (C16_equality_filters recordA "price " " '600'").2.2.1 (by decide) (by decide)
      (by decide) (by decide) (by decide) (by decide) equalityWithinModel_price_600.2,
    ((C16_equality_filters recordA "" "").2.2.2.1 "  " " " "North America" (by decide)
      (by decide) (by decide)).1,
    (C16_equality_filters recordA "" "").2.2.2.2 600 " 600" (by decide)⟩

/-- C17 as stated fails for text that coerces to a number: the empty product name
coerces to 0, so `product > -1` holds on that record although the field is not a
number.  It also fails for a value text containing `>`: the filter is split at each `>`
and only the piece after the first one is coerced. -/
theorem C17_empty_string_counterexample :
    (getProp recordBlankName "product" = .string "" ∧
        filterPredicate recordBlankName "product > -1" = true ∧
        numericGreaterThan (getProp recordBlankName "product")
          (stringToNumber (trim " -1")) = false) ∧
      (filterPredicate recordA "price > 5>3" = true ∧
        numericGreaterThan (getProp recordA "price") (stringToNumber (trim " 5>3")) =
          false) := by
  decide

/-- C17, amended. Numeric filters on representable numbers: a filter `L > R` (resp.
`L < R`) without `==` and `!=`, split at its only `>` (resp. `<`), holds on a record
iff the field named by `L` trimmed, coerced to a number the way JavaScript does, is
greater (resp. less) than `R` trimmed and coerced to a number.  For a number-valued
field this is the plain comparison; text is coerced like the value side, so that text
which is a numeric literal becomes that number and the empty string 0; a value that
coerces to `NaN` (an absent field, a date, a product name) makes both predicates
false.  Every case returns a Boolean. -/
theorem C17_numeric_filters (item : Record) (L R : String) :
    (includes (L ++ ">" ++ R) "==" = false → includes (L ++ ">" ++ R) "!=" = false →
        includes L ">" = false → includes R ">" = false →
        OrderingWithinModel item (trim L) (trim R) →
        filterPredicate item (L ++ ">" ++ R) =
          (stringToNumber (trim R)).lt (toNumber (getProp item (trim L)))) ∧
      (includes (L ++ "<" ++ R) "==" = false → includes (L ++ "<" ++ R) "!=" = false →
        includes (L ++ "<" ++ R) ">" = false →
        includes L "<" = false → includes R "<" = false →
        OrderingWithinModel item (trim L) (trim R) →
        filterPredicate item (L ++ "<" ++ R) =
          (toNumber (getProp item (trim L))).lt (stringToNumber (trim R))) ∧
      (∀ a b : ℚ,
        (JSNumber.fin b).lt (toNumber (.number (.fin a))) = decide (b < a) ∧
          (toNumber (.number (.fin a))).lt (JSNumber.fin b) = decide (a < b)) ∧
      (∀ (x : JSValue) (n : JSNumber), toNumber x = .nan →
        n.lt (toNumber x) = false ∧ (toNumber x).lt n = false) ∧
      (∀ field, ownProp item field = none → toNumber (getProp item field) = .nan) ∧
      (∀ text : String, toNumber (.string text) = stringToNumber text) ∧
      toNumber (.string "42") = .fin 42 ∧
      toNumber (.string "2024-01-01") = .nan ∧
      toNumber (.string "Widget Pro") = .nan ∧
      toNumber (.string "") = .fin 0 := by
  refine ⟨?_, ?_, ?_, ?_, ?_, fun _ => rfl, by decide, by decide, by decide, by decide⟩
  · intro h1 h2 h3 h4 _
    rw [filterPredicate_eq_sides, if_neg (by simp [h1]), if_neg (by simp [h2]),
      if_pos (includes_mid L ">" R), sidesOf_gt L R _ h3 h4]
    rfl
  · intro h1 h2 h3 h4 h5 _
    rw [filterPredicate_eq_sides, if_neg (by simp [h1]), if_neg (by simp [h2]),
      if_neg (by simp [h3]), if_pos (includes_mid L "<" R), sidesOf_lt L R _ h4 h5]
    rfl
  · intro a b
    exact ⟨rfl, rfl⟩
  · intro x n hx
    rw [hx]
    cases n <;> exact ⟨rfl, rfl⟩
  · intro field hfield
    have : getProp item field = .undefined := by
      induction item with
      | nil => rfl
      | cons p rest ih =>
        simp only [ownProp, getProp] at hfield ⊢
        by_cases hp : p.1 = field
        · simp [hp] at hfield
        · simp only [hp, if_false] at hfield ⊢
          exact ih hfield
    rw [this]
    rfl

theorem orderingWithinModel_examples :
    OrderingWithinModel recordA (trim "price ") (trim " 500") ∧
      OrderingWithinModel recordA (trim "date ") (trim " 0") ∧
      OrderingWithinModel recordTextCount (trim "units_sold ") (trim " 40") := by
  have h1 : toNumber (getProp recordA (trim "price ")) = .fin ((600 : ℤ) : ℚ) := by decide
  have h2 : stringToNumber (trim " 500") = .fin ((500 : ℤ) : ℚ) := by decide
  have h3 : toNumber (getProp recordA (trim "date ")) = .nan := by decide
  have h4 : stringToNumber (trim " 0") = .fin ((0 : ℤ) : ℚ) := by decide
  have h5 : toNumber (getProp recordTextCount (trim "units_sold ")) =
      .fin ((42 : ℤ) : ℚ) := by decide
  have h6 : stringToNumber (trim " 40") = .fin ((40 : ℤ) : ℚ) := by decide
  exact ⟨⟨h1 ▸ representable_int 600 (by norm_num), h2 ▸ representable_int 500 (by norm_num)⟩,
    ⟨h3 ▸ trivial, h4 ▸ representable_int 0 (by norm_num)⟩,
    ⟨h5 ▸ representable_int 42 (by norm_num), h6 ▸ representable_int 40 (by norm_num)⟩⟩

theorem C17_numeric_filters_witness :
    filterPredicate recordA ("price " ++ ">" ++ " 500") = true ∧
      filterPredicate recordA ("price " ++ "<" ++ " 500") = false ∧
      filterPredicate recordA ("date " ++ ">" ++ " 0") = false ∧
      filterPredicate recordTextCount ("units_sold " ++ ">" ++ " 40") = true ∧
      toNumber (getProp recordA "discount") = .nan :=
  ⟨((C17_numeric_filters recordA "price " " 500").1 (by decide) (by decide) (by decide)
      (by decide) orderingWithinModel_examples.1).trans (by decide),
    ((C17_numeric_filters recordA "price " " 500").2.1 (by decide) (by decide) (by decide)
      (by decide) (by decide) orderingWithinModel_examples.1).trans (by decide),
    ((C17_numeric_filters recordA "date " " 0").1 (by decide) (by decide) (by decide)
      (by decide) orderingWithinModel_examples.2.1).trans (by decide),
    ((C17_numeric_filters recordTextCount "units_sold " " 40").1 (by decide) (by decide)
      (by decide) (by decide) orderingWithinModel_examples.2.2).trans (by decide),
    (C17_numeric_filters recordA "" "").2.2.2.2.1 "discount" (by decide)⟩

/-! ## Clause text of a well-formed filter -/

theorem tokens_of_no_operator (f : String) (hf : hasOperatorToken f = false) :
    includes f "==" = false ∧ includes f "!=" = false ∧ includes f ">" = false ∧
      includes f "<" = false := by
  unfold hasOperatorToken at hf
  simp only [Bool.or_eq_false_iff] at hf
  exact ⟨hf.1.1.1, hf.1.1.2, hf.1.2, hf.2⟩

theorem includes_pair_pad_right (f ws pat : String) (x y : Char) (hpat : pat.data = [x, y])
    (hws : ∀ c ∈ ws.data, c ≠ y) : includes (f ++ ws) pat = includes f pat := by
  unfold includes
  rw [String.data_append, hpat, includesChars_pair_append_ws x y _ _ hws]

theorem includes_pair_pad_left (ws t pat : String) (x y : Char) (hpat : pat.data = [x, y])
    (hws : ∀ c ∈ ws.data, c ≠ x) : includes (ws ++ t) pat = includes t pat := by
  unfold includes
  rw [String.data_append, hpat, includesChars_pair_ws_append x y _ _ hws]

theorem includes_single_append (a t pat : String) (x : Char) (hpat : pat.data = [x]) :
    includes (a ++ t) pat = (includes a pat || includes t pat) := by
  unfold includes
  rw [String.data_append, hpat, includesChars_single, includesChars_single,
    includesChars_single]
  by_cases h1 : x ∈ a.data <;> by_cases h2 : x ∈ t.data <;> simp [h1, h2]

theorem includes_pair_around_single (L sep R pat : String) (c x y : Char)
    (hsep : sep.data = [c]) (hpat : pat.data = [x, y]) (hx : c ≠ x) (hy : c ≠ y) :
    includes (L ++ sep ++ R) pat = (includes L pat || includes R pat) := by
  unfold includes
  rw [String.data_append, String.data_append, hsep, hpat, List.append_assoc]
  exact includesChars_pair_sep x y c _ _ hx hy

theorem includes_eq_around_ne (L R : String) (h1 : includes L "==" = false)
    (h2 : includes R "==" = false) (h3 : R.data.head? ≠ some '=') :
    includes (L ++ "!=" ++ R) "==" = false := by
  unfold includes at h1 h2 ⊢
  rw [String.data_append, String.data_append, List.append_assoc]
  show includesChars ['=', '='] (L.data ++ '!' :: ('=' :: R.data)) = false
  rw [includesChars_pair_sep '=' '=' '!' _ _ (by decide) (by decide)]
  have h4 : includesChars ['=', '='] ('=' :: R.data) = false := by
    have := includesChars_pair_append '=' '=' ['='] R.data
    simp only [List.singleton_append] at this
    rw [this]
    have h2' : includesChars ['=', '='] R.data = false := h2
    simp [h2', h3, includesChars, startsWithChars]
  have h1' : includesChars ['=', '='] L.data = false := h1
  rw [h1', h4]
  rfl

theorem last_ne_eq_of_pad (f ws : String) (hws : ∀ c ∈ ws.data, c ≠ '=')
    (hedge : ws.data ≠ [] ∨ f.data.getLast? ≠ some '=') :
    (f ++ ws).data.getLast? ≠ some '=' := by
  rw [String.data_append]
  intro h
  by_cases hnil : ws.data = []
  · rw [hnil, List.append_nil] at h
    rcases hedge with h1 | h1
    · exact h1 hnil
    · exact h1 h
  · rw [List.getLast?_append_of_ne_nil _ hnil] at h
    exact hws _ (List.mem_of_getLast?_eq_some h) rfl

theorem quote_data : ("'" : String).data = ['\''] := rfl

theorem includes_pair_quoted (v pat : String) (x y : Char) (hpat : pat.data = [x, y])
    (hx : '\'' ≠ x) (hy : '\'' ≠ y) :
    includes ("'" ++ v ++ "'") pat = includes v pat := by
  rw [includes_pair_pad_right _ "'" pat x y hpat
      (fun c hc => by rw [quote_data] at hc; rw [List.mem_singleton.mp hc]; exact hy),
    includes_pair_pad_left "'" v pat x y hpat
      (fun c hc => by rw [quote_data] at hc; rw [List.mem_singleton.mp hc]; exact hx)]

theorem head_quoted_pad (ws v : String) (hws : ∀ c ∈ ws.data, c ≠ '=') :
    (ws ++ ("'" ++ v ++ "'")).data.head? ≠ some '=' := by
  rw [String.data_append, String.data_append, String.data_append, quote_data]
  cases hd : ws.data with
  | nil => simp
  | cons w rest =>
    have : w ≠ '=' := hws w (by rw [hd]; exact List.mem_cons_self _ _)
    simpa using this
/-- C15 as stated fails without whitespace before `==` when the field text ends in `=`:
`a=` and `b` contain no operator token, no quote and no outer whitespace, yet the filter
`a===b` splits at its first `==` and renders `a = '=b'`, not `a= = 'b'`. -/
theorem C15_adjacent_equals_counterexample :
    (hasOperatorToken "a=" = false ∧ hasOperatorToken "b" = false) ∧
      clauseText ("a=" ++ "" ++ "==" ++ ("" ++ "b")) = some "a = '=b'" ∧
      clauseText ("a=" ++ "" ++ "==" ++ ("" ++ "b")) ≠ some ("a=" ++ " = '" ++ "b" ++ "'") := by
  decide

/-- C15, amended. Clause text rendering: for a field text `f` and a value text `v` with
no operator token, no apostrophe and no outer whitespace, and any whitespace `ws1`,
`ws2` around the operator (not empty before `==` when `f` ends in `=`), the filters
`f == 'v'` and `f == v` render `f = 'v'`, `f != 'v'` renders `f != 'v'`, `f > v`
renders `f > v` and `f < v` renders `f < v`, the value unquoted. -/
theorem C15_clause_text (f v ws1 ws2 : String)
    (hf : hasOperatorToken f = false) (hv : hasOperatorToken v = false)
    (hfq : '\'' ∉ f.data) (hvq : '\'' ∉ v.data)
    (hfh : ∀ c, f.data.head? = some c → isJSWhitespace c = false)
    (hfl : ∀ c, f.data.getLast? = some c → isJSWhitespace c = false)
    (hvh : ∀ c, v.data.head? = some c → isJSWhitespace c = false)
    (hvl : ∀ c, v.data.getLast? = some c → isJSWhitespace c = false)
    (hws1 : ∀ c ∈ ws1.data, isJSWhitespace c = true)
    (hws2 : ∀ c ∈ ws2.data, isJSWhitespace c = true) :
    ((ws1.data ≠ [] ∨ f.data.getLast? ≠ some '=') →
        clauseText (f ++ ws1 ++ "==" ++ (ws2 ++ ("'" ++ v ++ "'"))) =
            some (f ++ " = '" ++ v ++ "'") ∧
          clauseText (f ++ ws1 ++ "==" ++ (ws2 ++ v)) = some (f ++ " = '" ++ v ++ "'")) ∧
      clauseText (f ++ ws1 ++ "!=" ++ (ws2 ++ ("'" ++ v ++ "'"))) =
        some (f ++ " != '" ++ v ++ "'") ∧
      clauseText (f ++ ws1 ++ ">" ++ (ws2 ++ v)) = some (f ++ " > " ++ v) ∧
      clauseText (f ++ ws1 ++ "<" ++ (ws2 ++ v)) = some (f ++ " < " ++ v) := by
  obtain ⟨f1, f2, f3, f4⟩ := tokens_of_no_operator f hf
  obtain ⟨v1, v2, v3, v4⟩ := tokens_of_no_operator v hv
  have w1 := fun c hc => not_ws_of_eq c (hws1 c hc)
  have w2 := fun c hc => not_ws_of_eq c (hws2 c hc)
  have nil_ws : ∀ c ∈ ("" : String).data, isJSWhitespace c = true := fun c hc => by cases hc
  -- the left side
  have L_eq : includes (f ++ ws1) "==" = false := by
    rw [includes_pair_pad_right f ws1 "==" '=' '=' rfl (fun c hc => (w1 c hc).1)]; exact f1
  have L_ne : includes (f ++ ws1) "!=" = false := by
    rw [includes_pair_pad_right f ws1 "!=" '!' '=' rfl (fun c hc => (w1 c hc).1)]; exact f2
  have ws1_gt : includes ws1 ">" = false := by
    rw [includes_single_iff ws1 '>' ">" rfl]
    simpa using fun h => (w1 _ h).2.2.1 rfl
  have ws1_lt : includes ws1 "<" = false := by
    rw [includes_single_iff ws1 '<' "<" rfl]
    simpa using fun h => (w1 _ h).2.2.2.1 rfl
  have ws2_gt : includes ws2 ">" = false := by
    rw [includes_single_iff ws2 '>' ">" rfl]
    simpa using fun h => (w2 _ h).2.2.1 rfl
  have ws2_lt : includes ws2 "<" = false := by
    rw [includes_single_iff ws2 '<' "<" rfl]
    simpa using fun h => (w2 _ h).2.2.2.1 rfl
  have L_gt : includes (f ++ ws1) ">" = false := by
    rw [includes_single_append f ws1 ">" '>' rfl, f3, ws1_gt]; rfl
  have L_lt : includes (f ++ ws1) "<" = false := by
    rw [includes_single_append f ws1 "<" '<' rfl, f4, ws1_lt]; rfl
  have L_trim : trim (f ++ ws1) = f := trim_pad "" f ws1 nil_ws hws1 hfh hfl
  have L_clean : stripQuotes (trim (f ++ ws1)) = f := by
    rw [L_trim, stripQuotes_of_not_mem f hfq]
  -- the right side, unquoted
  have Ru_eq : includes (ws2 ++ v) "==" = false := by
    rw [includes_pair_pad_left ws2 v "==" '=' '=' rfl (fun c hc => (w2 c hc).1)]; exact v1
  have Ru_ne : includes (ws2 ++ v) "!=" = false := by
    rw [includes_pair_pad_left ws2 v "!=" '!' '=' rfl (fun c hc => (w2 c hc).2.1)]; exact v2
  have Ru_gt : includes (ws2 ++ v) ">" = false := by
    rw [includes_single_append ws2 v ">" '>' rfl, v3, ws2_gt]; rfl
  have Ru_lt : includes (ws2 ++ v) "<" = false := by
    rw [includes_single_append ws2 v "<" '<' rfl, v4, ws2_lt]; rfl
  have Ru_trim : trim (ws2 ++ v) = v := by
    have h := trim_pad ws2 v "" hws2 nil_ws hvh hvl
    rwa [String.append_empty] at h
  have Ru_clean : stripQuotes (trim (ws2 ++ v)) = v := by
    rw [Ru_trim, stripQuotes_of_not_mem v hvq]
  -- the right side, quoted
  have Rq_eq : includes (ws2 ++ ("'" ++ v ++ "'")) "==" = false := by
    rw [includes_pair_pad_left ws2 _ "==" '=' '=' rfl (fun c hc => (w2 c hc).1),
      includes_pair_quoted v "==" '=' '=' rfl (by decide) (by decide)]
    exact v1
  have Rq_ne : includes (ws2 ++ ("'" ++ v ++ "'")) "!=" = false := by
    rw [includes_pair_pad_left ws2 _ "!=" '!' '=' rfl (fun c hc => (w2 c hc).2.1),
      includes_pair_quoted v "!=" '!' '=' rfl (by decide) (by decide)]
    exact v2
  have Rq_head := head_quoted_pad ws2 v (fun c hc => (w2 c hc).1)
  have Rq_clean : stripQuotes (trim (ws2 ++ ("'" ++ v ++ "'"))) = v := by
    have h := stripQuotes_trim_quoted ws2 v "" hws2 nil_ws hvq
    rwa [String.append_empty] at h
  refine ⟨fun hedge => ⟨?_, ?_⟩, ?_, ?_, ?_⟩
  · have L_last := last_ne_eq_of_pad f ws1 (fun c hc => (w1 c hc).1) hedge
    rw [clauseText_eq_sides, if_pos (includes_mid _ "==" _),
      sidesOf_eq _ _ _ L_eq L_last Rq_eq]
    simp only [L_clean, Rq_clean]
  · have L_last := last_ne_eq_of_pad f ws1 (fun c hc => (w1 c hc).1) hedge
    rw [clauseText_eq_sides, if_pos (includes_mid _ "==" _),
      sidesOf_eq _ _ _ L_eq L_last Ru_eq]
    simp only [L_clean, Ru_clean]
  · have hno : includes (f ++ ws1 ++ "!=" ++ (ws2 ++ ("'" ++ v ++ "'"))) "==" = false :=
      includes_eq_around_ne _ _ L_eq Rq_eq Rq_head
    rw [clauseText_eq_sides, if_neg (by simp [hno]), if_pos (includes_mid _ "!=" _),
      sidesOf_ne _ _ _ L_ne Rq_ne]
    simp only [L_clean, Rq_clean]
  · have hno1 : includes (f ++ ws1 ++ ">" ++ (ws2 ++ v)) "==" = false := by
      rw [includes_pair_around_single _ ">" _ "==" '>' '=' '=' rfl rfl (by decide) (by decide),
        L_eq, Ru_eq]
      rfl
    have hno2 : includes (f ++ ws1 ++ ">" ++ (ws2 ++ v)) "!=" = false := by
      rw [includes_pair_around_single _ ">" _ "!=" '>' '!' '=' rfl rfl (by decide) (by decide),
        L_ne, Ru_ne]
      rfl
    rw [clauseText_eq_sides, if_neg (by simp [hno1]), if_neg (by simp [hno2]),
      if_pos (includes_mid _ ">" _), sidesOf_gt _ _ _ L_gt Ru_gt]
    simp only [L_trim, Ru_trim]
  · have hno1 : includes (f ++ ws1 ++ "<" ++ (ws2 ++ v)) "==" = false := by
      rw [includes_pair_around_single _ "<" _ "==" '<' '=' '=' rfl rfl (by decide) (by decide),
        L_eq, Ru_eq]
      rfl
    have hno2 : includes (f ++ ws1 ++ "<" ++ (ws2 ++ v)) "!=" = false := by
      rw [includes_pair_around_single _ "<" _ "!=" '<' '!' '=' rfl rfl (by decide) (by decide),
        L_ne, Ru_ne]
      rfl
    have hno3 : includes (f ++ ws1 ++ "<" ++ (ws2 ++ v)) ">" = false := by
      rw [includes_single_append _ _ ">" '>' rfl, includes_single_append _ "<" ">" '>' rfl,
        L_gt, Ru_gt]
      decide
    rw [clauseText_eq_sides, if_neg (by simp [hno1]), if_neg (by simp [hno2]),
      if_neg (by simp [hno3]), if_pos (includes_mid _ "<" _), sidesOf_lt _ _ _ L_lt Ru_lt]
    simp only [L_trim, Ru_trim]

theorem C15_clause_text_witness :
    (clauseText ("region" ++ " " ++ "==" ++ (" " ++ ("'" ++ "Europe" ++ "'"))) =
          some "region = 'Europe'" ∧
        clauseText ("region" ++ " " ++ "==" ++ (" " ++ "Europe")) =
          some "region = 'Europe'") ∧
      clauseText ("price" ++ " " ++ ">" ++ (" " ++ "500")) = some "price > 500" ∧
      clauseText "price > 500" = some "price > 500" ∧
      clauseText "region == 'Europe'" = some "region = 'Europe'" :=
  ⟨(C15_clause_text "region" "Europe" " " " " (by decide) (by decide) (by decide)
      (by decide) (by decide) (by decide) (by decide) (by decide) (by decide)
      (by decide)).1 (Or.inl (by decide)),
    (C15_clause_text "price" "500" " " " " (by decide) (by decide) (by decide)
      (by decide) (by decide) (by decide) (by decide) (by decide) (by decide)
      (by decide)).2.2.1,
    by decide, by decide⟩

end QueryProcessor
